import Mathlib

/-!
Verification of the variable-resolution pipeline and hook-execution stage of
the kickstart scaffolding tool (src/src/main.rs), against its specification.

The file shallowly embeds the two resolution paths of main.rs —
`ask_questions` (interactive and automatic mode, lines 146-183) and
`load_values_from_json_file` (JSON input mode, lines 54-141) — together with
the hook runner (`execute_hook`, lines 185-197) and the generation pipeline of
`try_main` (lines 217-262).

The kickstart library itself (the `Template` evaluator `should_ask_variable` /
`get_default_for`, the prompt primitives `ask_bool` / `ask_string` /
`ask_choices` / `ask_integer`, and process spawning) is not part of the
analyzed sources; those collaborators are modelled from the spec's §6
interface contracts as record fields holding arbitrary fallible functions.
File I/O and JSON parsing are external as well: the embedding starts from a
parsed JSON value.
-/

set_option linter.unusedVariables false

namespace Kickstart

/-- Value: the tagged union of resolved variable values
(String / Boolean / Integer), used uniformly by all input paths of main.rs. -/
inductive Value where
  | String (s : String)
  | Boolean (b : Bool)
  | Integer (i : Int)
deriving DecidableEq, Repr

/-- ResolvedValues: main.rs uses a `HashMap<String, Value>` built by repeated
`insert`. We model it as an association list where `insert` conses in front
and `lookup` returns the most recent binding; this is observationally
equivalent to the HashMap (lookup sees the newest value for a key). -/
abbrev Vals : Type := List (String × Value)

/-- Association lookup returning the most recently inserted binding. -/
def Vals.lookup : Vals → String → Option Value
  | [], _ => none
  | (k, v) :: rest, n => if k = n then some v else Vals.lookup rest n

/-- HashMap::insert: later bindings shadow earlier ones under `Vals.lookup`. -/
def Vals.insert (vs : Vals) (n : String) (v : Value) : Vals :=
  (n, v) :: vs

/-- HashMap::contains_key. -/
def Vals.containsKey (vs : Vals) (n : String) : Bool :=
  (Vals.lookup vs n).isSome

/-- JNumber: a serde_json number, abstracted by its `as_i64` view — `some i`
when the number is i64-representable, `none` otherwise (floats, out-of-range). -/
abbrev JNumber : Type := Option Int

/-- serde_json's `Number::is_i64`: true exactly when `as_i64` would succeed. -/
def JNumber.is_i64 (n : JNumber) : Bool := n.isSome

/-- A parsed JSON value, as far as main.rs inspects it: strings, booleans,
numbers (via their as_i64 view), null, arrays and objects. Array contents are
never inspected by the code, so they are not carried. -/
inductive JVal where
  | jstr (s : String)
  | jbool (b : Bool)
  | jnum (n : JNumber)
  | jnull
  | jarr
  | jobj (fields : List (String × JVal))

/-- The fields of a JSON object (serde_json::Map). -/
abbrev JMap : Type := List (String × JVal)

/-- Lookup in a JSON object (serde_json `Map::get`). -/
def JMap.lookup : JMap → String → Option JVal
  | [], _ => none
  | (k, v) :: rest, n => if k = n then some v else JMap.lookup rest n

/-- serde_json `Map::contains_key`. -/
def JMap.containsKey (jm : JMap) (n : String) : Bool :=
  (JMap.lookup jm n).isSome

/-- Outcome of the number-conversion arm of main.rs lines 108-116: a Value,
the only-integers type error, or a runtime panic (the `unwrap` on line 109). -/
inductive ConvOutcome where
  | ok (v : Value)
  | typeError
  | panicked
deriving DecidableEq, Repr

/-- main.rs lines 108-116: `Number(n) if n.is_i64() => Integer(n.as_i64().unwrap())`,
`Number(_) => only-integers error`. The `unwrap` is modelled honestly: applied
to `none` it panics. -/
def numberToValue (n : JNumber) : ConvOutcome :=
  if JNumber.is_i64 n then
    match n with
    | some i => ConvOutcome.ok (Value.Integer i)
    | none => ConvOutcome.panicked
  else ConvOutcome.typeError

/-- Error message of main.rs line 75. -/
def root_not_object_msg : String :=
  "Input JSON must be an object mapping variable names to simple value (strings, booleans, number)"

/-- Error messages of main.rs lines 111-128, by the offending JSON shape. -/
def invalid_type_msg (name : String) : JVal → String
  | JVal.jnum _ =>
      "Invalid type for variable `" ++ name ++ "` in input file: only integer numbers are supported"
  | JVal.jnull =>
      "Invalid type for variable `" ++ name ++ "` in input file: null is not supported"
  | _ =>
      "Invalid type for variable `" ++ name ++ "` in input file: nested arrays/objects are not supported"

/-- Warning of main.rs line 87. -/
def unknown_variable_warning (key : String) : String :=
  "Variable `" ++ key ++ "` not defined in template"

/-- Warning of main.rs line 98. -/
def only_if_warning (name : String) : String :=
  "Variable `" ++ name ++ "` provided in input but its `only_if` condition is not satisfied"

/-- Error of main.rs line 135. -/
def missing_required_msg (name : String) : String :=
  "Required variable `" ++ name ++ "` missing from input file"

/-- Error message surfaced by a panic; kept distinct so that reachability of
the panic arm can be stated. -/
def panic_msg : String := "panicked: called Option::unwrap on a None value"

/-- The `match json_value` conversion of main.rs lines 105-129: JSON string,
boolean and i64-representable number convert; other numbers, null, arrays and
objects fail with an error naming the variable. -/
def json_to_value (name : String) : JVal → Except String Value
  | JVal.jstr s => Except.ok (Value.String s)
  | JVal.jbool b => Except.ok (Value.Boolean b)
  | JVal.jnum n =>
    match numberToValue n with
    | ConvOutcome.ok v => Except.ok v
    | ConvOutcome.typeError => Except.error (invalid_type_msg name (JVal.jnum n))
    | ConvOutcome.panicked => Except.error panic_msg
  | JVal.jnull => Except.error (invalid_type_msg name JVal.jnull)
  | JVal.jarr => Except.error (invalid_type_msg name JVal.jarr)
  | JVal.jobj fields => Except.error (invalid_type_msg name (JVal.jobj fields))

/-- JSON shapes rejected by the conversion of main.rs lines 105-129. -/
def JVal.badShape : JVal → Bool
  | JVal.jnum n => !n.isSome
  | JVal.jnull => true
  | JVal.jarr => true
  | JVal.jobj _ => true
  | _ => false

/-- Whether a parsed JSON value is an object. -/
def JVal.isObject : JVal → Bool
  | JVal.jobj _ => true
  | _ => false

/-- A variable declaration of the template: name, prompt, optional choice set,
optional validation pattern. The applicability condition and default
expression are opaque to main.rs (evaluated by the Template collaborator). -/
structure VarDecl where
  name : String
  prompt : String
  choices : Option (List String)
  validation : Option String
deriving DecidableEq, Repr

/-- Modelled from the spec: the kickstart library `Template` (not among the
analyzed sources) as consumed by main.rs — its ordered variable declarations
plus the external Evaluator contract of spec §6:
`should_ask(variable_name, resolved_so_far) -> bool, fails on evaluation
error` and `default_for(variable_name, resolved_so_far) -> Value, fails on
evaluation error`. Field names follow the call sites in main.rs. -/
structure Template where
  «variables» : List VarDecl
  should_ask_variable : String → Vals → Except String Bool
  get_default_for : String → Vals → Except String Value

/-- Modelled from the spec: the interactive prompt primitives of §6
(`ask_boolean`, `ask_string`, `ask_choice`, `ask_integer`), external
collaborators of main.rs; each may fail. `ask_choices` takes and returns a
`Value`, as at main.rs line 157. -/
structure Prompter where
  ask_bool : String → Bool → Except String Bool
  ask_string : String → String → Option String → Except String String
  ask_choices : String → Value → List String → Except String Value
  ask_integer : String → Int → Except String Int

/-- main.rs lines 80-89: one warning per input key not declared in the
template (console writes modelled as a collected list, in key order). -/
def unknownKeyWarnings (tmpl : Template) (jm : JMap) : List String :=
  List.filterMap
    (fun kv : String × JVal =>
      if tmpl.variables.any (fun v => v.name = kv.1) then none
      else some (unknown_variable_warning kv.1))
    jm

/-- The per-variable loop of `load_values_from_json_file`, main.rs lines
94-138: walk declarations in template order; skip (with a warning) a supplied
variable whose `only_if` is not satisfied; convert and insert a supplied value;
fail when an applicable variable is missing from the input. Rust's `?` on the
evaluator and on the conversion is `Except.bind`; warnings are threaded as a
list. -/
def load_values_loop (tmpl : Template) (jm : JMap) :
    List VarDecl → Vals → List String → Except String (Vals × List String)
  | [], vals, warns => Except.ok (vals, warns)
  | var :: rest, vals, warns =>
    (tmpl.should_ask_variable var.name vals).bind (fun applicable =>
      if !applicable && JMap.containsKey jm var.name then
        load_values_loop tmpl jm rest vals (warns ++ [only_if_warning var.name])
      else
        match JMap.lookup jm var.name with
        | some jv =>
          (json_to_value var.name jv).bind (fun v =>
            load_values_loop tmpl jm rest (Vals.insert vals var.name v) warns)
        | none =>
          (tmpl.should_ask_variable var.name vals).bind (fun applicable2 =>
            if applicable2 && !(Vals.containsKey vals var.name) then
              Except.error (missing_required_msg var.name)
            else
              load_values_loop tmpl jm rest vals warns))

/-- `load_values_from_json_file`, main.rs lines 54-141, starting from the
parsed JSON root (file existence, reading and JSON parsing are external I/O):
reject a non-object root, warn on unknown keys, then run the declaration loop
on an empty mapping. Returns the resolved mapping and the warnings. -/
def load_values_from_json_file (tmpl : Template) (root : JVal) :
    Except String (Vals × List String) :=
  match root with
  | JVal.jobj jm => load_values_loop tmpl jm tmpl.variables [] (unknownKeyWarnings tmpl jm)
  | _ => Except.error root_not_object_msg

/-- The acquisition dispatch of main.rs lines 155-179, keyed on the computed
default's variant: a String default with a declared choice set goes through
`ask_choices` (the default verbatim in automatic mode); otherwise Boolean /
String / Integer defaults go through their typed prompts, each short-circuited
to the default when `no_input` is set. -/
def prompt_or_default (no_input : Bool) (p : Prompter) (var : VarDecl) :
    Value → Except String Value
  | Value.String s =>
    match var.choices with
    | some choices =>
      if no_input then Except.ok (Value.String s)
      else p.ask_choices var.prompt (Value.String s) choices
    | none =>
      (if no_input then Except.ok s else p.ask_string var.prompt s var.validation).map
        Value.String
  | Value.Boolean b =>
    (if no_input then Except.ok b else p.ask_bool var.prompt b).map Value.Boolean
  | Value.Integer i =>
    (if no_input then Except.ok i else p.ask_integer var.prompt i).map Value.Integer

/-- The per-variable loop of `ask_questions`, main.rs lines 149-180: skip
inapplicable declarations, compute the default, acquire a value by the
default's variant, insert it. -/
def ask_questions_loop (tmpl : Template) (no_input : Bool) (p : Prompter) :
    List VarDecl → Vals → Except String Vals
  | [], vals => Except.ok vals
  | var :: rest, vals =>
    (tmpl.should_ask_variable var.name vals).bind (fun applicable =>
      if !applicable then ask_questions_loop tmpl no_input p rest vals
      else
        (tmpl.get_default_for var.name vals).bind (fun d =>
          (prompt_or_default no_input p var d).bind (fun v =>
            ask_questions_loop tmpl no_input p rest (Vals.insert vals var.name v))))

/-- `ask_questions`, main.rs lines 146-183. -/
def ask_questions (tmpl : Template) (no_input : Bool) (p : Prompter) :
    Except String Vals :=
  ask_questions_loop tmpl no_input p tmpl.variables []

/-- A generation hook: external executable with a name and a path
(kickstart's HookFile, consumed by main.rs). -/
structure HookFile where
  name : String
  path : String
deriving DecidableEq, Repr

/-- Modelled from the spec: the operating system's behaviour when spawning a
hook as a child process — `Except.error` when spawning fails (main.rs line
191's `?`), otherwise `Except.ok success` with the exit status. The working
directory handling of lines 188-190 does not affect any observable of the
claims and is external process state. -/
structure HookEnv where
  status : HookFile → Except String Bool

/-- Error of main.rs line 195. -/
def hook_failure_msg (name : String) : String :=
  "Hook `" ++ name ++ "` exited with a non 0 code\n"

/-- `execute_hook`, main.rs lines 185-197: spawn the hook, succeed on exit
code 0, otherwise fail naming the hook. -/
def execute_hook (env : HookEnv) (hook : HookFile) : Except String Unit :=
  match env.status hook with
  | Except.error e => Except.error e
  | Except.ok true => Except.ok ()
  | Except.ok false => Except.error (hook_failure_msg hook.name)

/-- Observable events of the generation pipeline: a hook being started (the
bold print of line 186 followed by the spawn) and the generation step. -/
inductive Event where
  | hookStarted (name : String)
  | generated
deriving DecidableEq, Repr

/-- One hook phase of `try_main` (lines 240-242 resp. 254-256): run the hooks
in list order through `execute_hook`, stopping at the first failure. Returns
the trace of started hooks and the failure, if any. -/
def run_hook_phase (env : HookEnv) : List HookFile → List Event × Option String
  | [] => ([], none)
  | h :: rest =>
    match execute_hook env h with
    | Except.error e => ([Event.hookStarted h.name], some e)
    | Except.ok _ =>
      let res := run_hook_phase env rest
      (Event.hookStarted h.name :: res.1, res.2)

/-- Steps 2-4 of `try_main` (main.rs lines 236-259): pre-generation hooks
(when enabled and non-empty), then generation, then post-generation hooks.
`genResult` abstracts the external `template.generate` call. Returns the event
trace and the first failure. -/
def generation_phase (runHooks : Bool) (env : HookEnv) (genResult : Except String Unit)
    (pre post : List HookFile) : List Event × Option String :=
  let preRes :=
    if runHooks && !pre.isEmpty then run_hook_phase env pre else ([], none)
  match preRes.2 with
  | some e => (preRes.1, some e)
  | none =>
    match genResult with
    | Except.error e => (preRes.1, some e)
    | Except.ok _ =>
      let postRes :=
        if runHooks && !post.isEmpty then run_hook_phase env post else ([], none)
      (preRes.1 ++ Event.generated :: postRes.1, postRes.2)

/-- The non-Validate branch of `try_main` (main.rs lines 217-262): resolve
values from the JSON input file (rejecting the combination with `--no-input`)
or by asking questions, hand them to `template.set_variables` (external,
abstracted by `setVars`), then run the generation phase. Hook discovery
(`get_pre_gen_hooks` / `get_post_gen_hooks`, external) is abstracted by the
given lists. -/
def try_main_generate (tmpl : Template) (input_file : Option JVal) (no_input : Bool)
    (p : Prompter) (setVars : Vals → Except String Unit) (runHooks : Bool)
    (env : HookEnv) (genResult : Except String Unit) (pre post : List HookFile) :
    List Event × Option String :=
  let valsE : Except String Vals :=
    match input_file with
    | some root =>
      if no_input then Except.error "--input-file and --no-input cannot be used together"
      else
        match load_values_from_json_file tmpl root with
        | Except.error e => Except.error e
        | Except.ok res => Except.ok res.1
    | none => ask_questions tmpl no_input p
  match valsE with
  | Except.error e => ([], some e)
  | Except.ok vals =>
    match setVars vals with
    | Except.error e => ([], some e)
    | Except.ok _ => generation_phase runHooks env genResult pre post

/-- Record of one declaration's treatment during an `ask_questions` run: the
declaration, the applicability judgment, the computed default (when
applicable) and the value inserted (when applicable). -/
structure AskJudgment where
  var : VarDecl
  applicable : Bool
  defaultVal : Option Value
  resolved : Option Value
deriving DecidableEq, Repr

/-- Instrumented `ask_questions_loop`: identical control flow, additionally
returning one `AskJudgment` per processed declaration, in order. -/
def ask_questions_loopT (tmpl : Template) (no_input : Bool) (p : Prompter) :
    List VarDecl → Vals → Except String (Vals × List AskJudgment)
  | [], vals => Except.ok (vals, [])
  | var :: rest, vals =>
    (tmpl.should_ask_variable var.name vals).bind (fun applicable =>
      if !applicable then
        (ask_questions_loopT tmpl no_input p rest vals).map
          (fun x => (x.1, ⟨var, false, none, none⟩ :: x.2))
      else
        (tmpl.get_default_for var.name vals).bind (fun d =>
          (prompt_or_default no_input p var d).bind (fun v =>
            (ask_questions_loopT tmpl no_input p rest (Vals.insert vals var.name v)).map
              (fun x => (x.1, ⟨var, true, some d, some v⟩ :: x.2)))))

/-- Instrumented `ask_questions`. -/
def ask_questionsT (tmpl : Template) (no_input : Bool) (p : Prompter) :
    Except String (Vals × List AskJudgment) :=
  ask_questions_loopT tmpl no_input p tmpl.variables []

/-- Record of one declaration's treatment during a `load_values_from_json_file`
run: the declaration, the applicability judgment, the JSON value supplied for
it (if any) and the value inserted (when one was). -/
structure JsonJudgment where
  var : VarDecl
  applicable : Bool
  supplied : Option JVal
  resolved : Option Value

/-- Instrumented `load_values_loop`: identical control flow, additionally
returning one `JsonJudgment` per processed declaration, in order. -/
def load_values_loopT (tmpl : Template) (jm : JMap) :
    List VarDecl → Vals → List String → Except String (Vals × List String × List JsonJudgment)
  | [], vals, warns => Except.ok (vals, warns, [])
  | var :: rest, vals, warns =>
    (tmpl.should_ask_variable var.name vals).bind (fun applicable =>
      if !applicable && JMap.containsKey jm var.name then
        (load_values_loopT tmpl jm rest vals (warns ++ [only_if_warning var.name])).map
          (fun x => (x.1, x.2.1, ⟨var, applicable, JMap.lookup jm var.name, none⟩ :: x.2.2))
      else
        match JMap.lookup jm var.name with
        | some jv =>
          (json_to_value var.name jv).bind (fun v =>
            (load_values_loopT tmpl jm rest (Vals.insert vals var.name v) warns).map
              (fun x => (x.1, x.2.1, ⟨var, applicable, some jv, some v⟩ :: x.2.2)))
        | none =>
          (tmpl.should_ask_variable var.name vals).bind (fun applicable2 =>
            if applicable2 && !(Vals.containsKey vals var.name) then
              Except.error (missing_required_msg var.name)
            else
              (load_values_loopT tmpl jm rest vals warns).map
                (fun x => (x.1, x.2.1, ⟨var, applicable, none, none⟩ :: x.2.2))))

/-- Instrumented `load_values_from_json_file`. -/
def load_values_from_json_fileT (tmpl : Template) (root : JVal) :
    Except String (Vals × List String × List JsonJudgment) :=
  match root with
  | JVal.jobj jm => load_values_loopT tmpl jm tmpl.variables [] (unknownKeyWarnings tmpl jm)
  | _ => Except.error root_not_object_msg

/-- Names of the declarations judged applicable in an `ask_questions` run. -/
def appliedNamesAsk (js : List AskJudgment) : List String :=
  List.filterMap (fun j => if j.applicable then some j.var.name else none) js

/-- Names of the declarations judged applicable in a JSON-input run. -/
def appliedNamesJson (js : List JsonJudgment) : List String :=
  List.filterMap (fun j => if j.applicable then some j.var.name else none) js

/-- Variant agreement between two Values (same constructor). -/
def Value.sameVariant : Value → Value → Bool
  | Value.String _, Value.String _ => true
  | Value.Boolean _, Value.Boolean _ => true
  | Value.Integer _, Value.Integer _ => true
  | _, _ => false

/-- Serialization of a resolved Value back to the flat JSON shape accepted by
the JSON Input Adapter (spec §8, JSON round-trip). -/
def Value.toJson : Value → JVal
  | Value.String s => JVal.jstr s
  | Value.Boolean b => JVal.jbool b
  | Value.Integer i => JVal.jnum (some i)

/-- Serialization of a resolved mapping to a flat JSON object. -/
def Vals.toJsonMap (vs : Vals) : JMap :=
  List.map (fun kv : String × Value => (kv.1, Value.toJson kv.2)) vs

/-! Concrete templates, prompters and hook environments used to evaluate the
pipeline on the scenario of spec §8 and on small refutation inputs. -/

/-- The scenario template of spec §8: `name:string("demo")`,
`use_docker:boolean(false)`, `port:integer(8080, only_if use_docker)`. -/
def demoTemplate : Template :=
  { «variables» :=
      [ ⟨"name", "Project name?", none, none⟩
      , ⟨"use_docker", "Use docker?", none, none⟩
      , ⟨"port", "Port?", none, none⟩ ]
  , should_ask_variable := fun n vs =>
      if n = "port" then
        match Vals.lookup vs "use_docker" with
        | some (Value.Boolean b) => Except.ok b
        | _ => Except.ok false
      else Except.ok true
  , get_default_for := fun n _ =>
      if n = "name" then Except.ok (Value.String "demo")
      else if n = "use_docker" then Except.ok (Value.Boolean false)
      else Except.ok (Value.Integer 8080) }

/-- A prompter that accepts every default; its choice prompt returns the first
choice, so it satisfies the §6 `ask_choices` contract. -/
def demoPrompter : Prompter :=
  { ask_bool := fun _ d => Except.ok d
  , ask_string := fun _ d _ => Except.ok d
  , ask_choices := fun _ _ cs =>
      match cs with
      | c :: _ => Except.ok (Value.String c)
      | [] => Except.error "no choices"
  , ask_integer := fun _ d => Except.ok d }

/-- A prompter whose every prompt fails, to exhibit that automatic mode never
consults the prompter. -/
def failPrompter : Prompter :=
  { ask_bool := fun _ _ => Except.error "no tty"
  , ask_string := fun _ _ _ => Except.error "no tty"
  , ask_choices := fun _ _ _ => Except.error "no tty"
  , ask_integer := fun _ _ => Except.error "no tty" }

/-- A one-variable template whose declaration has a string default. -/
def typedTemplate : Template :=
  { «variables» := [⟨"x", "x?", none, none⟩]
  , should_ask_variable := fun _ _ => Except.ok true
  , get_default_for := fun _ _ => Except.ok (Value.String "demo") }

/-- A one-variable template whose declaration is never applicable. -/
def condTemplate : Template :=
  { «variables» := [⟨"x", "x?", none, none⟩]
  , should_ask_variable := fun _ _ => Except.ok false
  , get_default_for := fun _ _ => Except.ok (Value.Boolean false) }

/-- A one-variable template with a choice set whose default is a member. -/
def choiceTemplate : Template :=
  { «variables» := [⟨"license", "License?", some ["MIT", "BSD"], none⟩]
  , should_ask_variable := fun _ _ => Except.ok true
  , get_default_for := fun _ _ => Except.ok (Value.String "MIT") }

/-- A hook environment in which exactly the hook named `boom` exits with a
non-zero code. -/
def demoHookEnv : HookEnv :=
  { status := fun hk => if hk.name = "boom" then Except.ok false else Except.ok true }

/-- Resolved mapping of the automatic run on `demoTemplate`. -/
def demoAutoVals : Vals :=
  [("use_docker", Value.Boolean false), ("name", Value.String "demo")]

/-- Judgment trace of the automatic run on `demoTemplate`. -/
def demoAutoJs : List AskJudgment :=
  [ ⟨⟨"name", "Project name?", none, none⟩, true,
      some (Value.String "demo"), some (Value.String "demo")⟩
  , ⟨⟨"use_docker", "Use docker?", none, none⟩, true,
      some (Value.Boolean false), some (Value.Boolean false)⟩
  , ⟨⟨"port", "Port?", none, none⟩, false, none, none⟩ ]

/-- A JSON input for `demoTemplate` making `port` applicable. -/
def demoJsonMap : JMap :=
  [("name", JVal.jstr "x"), ("use_docker", JVal.jbool true),
   ("port", JVal.jnum (some 9000))]

/-- Resolved mapping of the JSON run of `demoJsonMap` on `demoTemplate`. -/
def demoJsonVals : Vals :=
  [("port", Value.Integer 9000), ("use_docker", Value.Boolean true),
   ("name", Value.String "x")]

/-- Judgment trace of the JSON run of `demoJsonMap` on `demoTemplate`. -/
def demoJsonJs : List JsonJudgment :=
  [ ⟨⟨"name", "Project name?", none, none⟩, true,
      some (JVal.jstr "x"), some (Value.String "x")⟩
  , ⟨⟨"use_docker", "Use docker?", none, none⟩, true,
      some (JVal.jbool true), some (Value.Boolean true)⟩
  , ⟨⟨"port", "Port?", none, none⟩, true,
      some (JVal.jnum (some 9000)), some (Value.Integer 9000)⟩ ]

/-! Basic lemmas about the mapping and serialization primitives. -/

@[simp]
theorem ebind_ok {α β : Type} (a : α) (f : α → Except String β) :
    (Except.ok a : Except String α).bind f = f a := rfl

@[simp]
theorem ebind_error {α β : Type} (e : String) (f : α → Except String β) :
    (Except.error e : Except String α).bind f = Except.error e := rfl

@[simp]
theorem emap_ok {α β : Type} (a : α) (f : α → β) :
    (Except.ok a : Except String α).map f = Except.ok (f a) := rfl

@[simp]
theorem emap_error {α β : Type} (e : String) (f : α → β) :
    (Except.error e : Except String α).map f = Except.error e := rfl

@[simp]
theorem emap_prodfst_ok {α β : Type} (x : Except String (α × β)) (a : α) :
    Except.map Prod.fst x = Except.ok a ↔ ∃ b', x = Except.ok (a, b') := by
  cases x with
  | error e => simp
  | ok y => cases y with
    | mk y1 y2 =>
      constructor
      · intro h
        simp only [emap_ok] at h
        cases h
        exact ⟨y2, rfl⟩
      · rintro ⟨b', hb⟩
        cases hb
        rfl

theorem Vals.lookup_insert (vs : Vals) (n m : String) (v : Value) :
    Vals.lookup (Vals.insert vs n v) m = if n = m then some v else Vals.lookup vs m := rfl

theorem JMap.lookup_toJsonMap (vs : Vals) (n : String) :
    JMap.lookup (Vals.toJsonMap vs) n = Option.map Value.toJson (Vals.lookup vs n) := by
  induction vs with
  | nil => rfl
  | cons kv rest ih =>
    obtain ⟨k, v⟩ := kv
    simp only [Vals.toJsonMap, List.map_cons, JMap.lookup, Vals.lookup] at *
    by_cases hk : k = n
    · simp [hk]
    · simp [hk, ih]

theorem json_to_value_toJson (n : String) (v : Value) :
    json_to_value n (Value.toJson v) = Except.ok v := by
  cases v <;> rfl

/-! Forward step lemmas for the JSON-input loop, one per control-flow branch of
main.rs lines 94-138. -/

theorem load_step_inapplicable_supplied {tmpl : Template} {jm : JMap} {var : VarDecl}
    {rest : List VarDecl} {vs : Vals} {ws : List String}
    (h1 : tmpl.should_ask_variable var.name vs = Except.ok false)
    (h2 : JMap.containsKey jm var.name = true) :
    load_values_loop tmpl jm (var :: rest) vs ws =
      load_values_loop tmpl jm rest vs (ws ++ [only_if_warning var.name]) := by
  rw [load_values_loop, h1, ebind_ok]
  simp [h2]

theorem load_step_supplied {tmpl : Template} {jm : JMap} {var : VarDecl}
    {rest : List VarDecl} {vs : Vals} {ws : List String} {jv : JVal} {v : Value}
    (h1 : tmpl.should_ask_variable var.name vs = Except.ok true)
    (h2 : JMap.lookup jm var.name = some jv)
    (h3 : json_to_value var.name jv = Except.ok v) :
    load_values_loop tmpl jm (var :: rest) vs ws =
      load_values_loop tmpl jm rest (Vals.insert vs var.name v) ws := by
  rw [load_values_loop, h1, ebind_ok]
  simp [h2, h3]

theorem load_step_supplied_badshape {tmpl : Template} {jm : JMap} {var : VarDecl}
    {rest : List VarDecl} {vs : Vals} {ws : List String} {jv : JVal} {e : String}
    (h1 : tmpl.should_ask_variable var.name vs = Except.ok true)
    (h2 : JMap.lookup jm var.name = some jv)
    (h3 : json_to_value var.name jv = Except.error e) :
    load_values_loop tmpl jm (var :: rest) vs ws = Except.error e := by
  rw [load_values_loop, h1, ebind_ok]
  simp [h2, h3]

theorem load_step_absent_inapplicable {tmpl : Template} {jm : JMap} {var : VarDecl}
    {rest : List VarDecl} {vs : Vals} {ws : List String}
    (h1 : tmpl.should_ask_variable var.name vs = Except.ok false)
    (h2 : JMap.lookup jm var.name = none) :
    load_values_loop tmpl jm (var :: rest) vs ws =
      load_values_loop tmpl jm rest vs ws := by
  rw [load_values_loop, h1, ebind_ok]
  simp [h2, JMap.containsKey, h1]

theorem load_step_missing {tmpl : Template} {jm : JMap} {var : VarDecl}
    {rest : List VarDecl} {vs : Vals} {ws : List String}
    (h1 : tmpl.should_ask_variable var.name vs = Except.ok true)
    (h2 : JMap.lookup jm var.name = none)
    (h3 : Vals.containsKey vs var.name = false) :
    load_values_loop tmpl jm (var :: rest) vs ws =
      Except.error (missing_required_msg var.name) := by
  rw [load_values_loop, h1, ebind_ok]
  simp [h2, h3, JMap.containsKey, h1]

/-! Projection lemmas: the instrumented loops compute the same results as the
loops of main.rs, forgetting the judgment trace. -/

theorem ask_loop_eq_loopT (tmpl : Template) (ni : Bool) (p : Prompter)
    (ds : List VarDecl) : ∀ vs : Vals,
    ask_questions_loop tmpl ni p ds vs =
      Except.map Prod.fst (ask_questions_loopT tmpl ni p ds vs) := by
  induction ds with
  | nil => intro vs; rfl
  | cons var rest ih =>
    intro vs
    rw [ask_questions_loop, ask_questions_loopT]
    cases hask : tmpl.should_ask_variable var.name vs with
    | error e => simp
    | ok applicable =>
      simp only [ebind_ok, ih]
      by_cases hc : (!applicable) = true
      · simp only [if_pos hc]
        cases hrec : ask_questions_loopT tmpl ni p rest vs with
        | error e => simp
        | ok out => simp
      · simp only [if_neg hc]
        cases hdef : tmpl.get_default_for var.name vs with
        | error e => simp
        | ok d =>
          simp only [ebind_ok]
          cases hpod : prompt_or_default ni p var d with
          | error e => simp
          | ok v =>
            simp only [ebind_ok]
            cases hrec : ask_questions_loopT tmpl ni p rest (Vals.insert vs var.name v) with
            | error e => simp
            | ok out => simp

theorem ask_questions_eq_T (tmpl : Template) (ni : Bool) (p : Prompter) :
    ask_questions tmpl ni p = Except.map Prod.fst (ask_questionsT tmpl ni p) :=
  ask_loop_eq_loopT tmpl ni p tmpl.variables []

theorem load_loop_eq_loopT (tmpl : Template) (jm : JMap)
    (ds : List VarDecl) : ∀ (vs : Vals) (ws : List String),
    load_values_loop tmpl jm ds vs ws =
      Except.map (fun x => (x.1, x.2.1)) (load_values_loopT tmpl jm ds vs ws) := by
  induction ds with
  | nil => intro vs ws; rfl
  | cons var rest ih =>
    intro vs ws
    rw [load_values_loop, load_values_loopT]
    cases hask : tmpl.should_ask_variable var.name vs with
    | error e => simp
    | ok applicable =>
      simp only [ebind_ok, ih]
      by_cases hcond : (!applicable && JMap.containsKey jm var.name) = true
      · simp only [if_pos hcond]
        cases hrec : load_values_loopT tmpl jm rest vs (ws ++ [only_if_warning var.name]) with
        | error e => simp
        | ok out => simp
      · simp only [if_neg hcond]
        cases hsup : JMap.lookup jm var.name with
        | some jv =>
          simp only []
          cases hconv : json_to_value var.name jv with
          | error e => simp
          | ok v =>
            simp only [ebind_ok]
            cases hrec : load_values_loopT tmpl jm rest (Vals.insert vs var.name v) ws with
            | error e => simp
            | ok out => simp
        | none =>
          simp only [ebind_ok]
          by_cases hcond2 : (applicable && !(Vals.containsKey vs var.name)) = true
          · simp only [if_pos hcond2]
            simp
          · simp only [if_neg hcond2]
            cases hrec : load_values_loopT tmpl jm rest vs ws with
            | error e => simp
            | ok out => simp

theorem load_values_eq_T (tmpl : Template) (root : JVal) :
    load_values_from_json_file tmpl root =
      Except.map (fun x => (x.1, x.2.1)) (load_values_from_json_fileT tmpl root) := by
  cases root <;>
    first
      | rfl
      | exact load_loop_eq_loopT tmpl _ tmpl.variables [] (unknownKeyWarnings tmpl _)

/-! Inversion lemmas: how one step of each instrumented loop can succeed. -/

theorem askT_cons_inv {tmpl : Template} {ni : Bool} {p : Prompter} {var : VarDecl}
    {rest : List VarDecl} {vs valsF : Vals} {js : List AskJudgment}
    (h : ask_questions_loopT tmpl ni p (var :: rest) vs = Except.ok (valsF, js)) :
    (∃ js', tmpl.should_ask_variable var.name vs = Except.ok false ∧
      ask_questions_loopT tmpl ni p rest vs = Except.ok (valsF, js') ∧
      js = ⟨var, false, none, none⟩ :: js') ∨
    (∃ d v js', tmpl.should_ask_variable var.name vs = Except.ok true ∧
      tmpl.get_default_for var.name vs = Except.ok d ∧
      prompt_or_default ni p var d = Except.ok v ∧
      ask_questions_loopT tmpl ni p rest (Vals.insert vs var.name v) = Except.ok (valsF, js') ∧
      js = ⟨var, true, some d, some v⟩ :: js') := by
  obtain ⟨applicable, hask⟩ :
      ∃ b, tmpl.should_ask_variable var.name vs = Except.ok b := by
    cases hh : tmpl.should_ask_variable var.name vs with
    | error e =>
      rw [ask_questions_loopT, hh, ebind_error] at h
      exact Except.noConfusion h
    | ok b => exact ⟨b, rfl⟩
  rw [ask_questions_loopT, hask, ebind_ok] at h
  cases applicable with
  | false =>
    rw [if_pos (by simp)] at h
    cases hrec : ask_questions_loopT tmpl ni p rest vs with
    | error e => rw [hrec, emap_error] at h; exact Except.noConfusion h
    | ok out =>
      obtain ⟨v1, j1⟩ := out
      rw [hrec, emap_ok] at h
      simp only [Except.ok.injEq, Prod.mk.injEq] at h
      obtain ⟨hv, hj⟩ := h
      subst hv
      exact Or.inl ⟨j1, hask, rfl, hj.symm⟩
  | true =>
    rw [if_neg (by simp)] at h
    obtain ⟨d, hdef⟩ :
        ∃ d, tmpl.get_default_for var.name vs = Except.ok d := by
      cases hh : tmpl.get_default_for var.name vs with
      | error e => rw [hh, ebind_error] at h; exact Except.noConfusion h
      | ok d => exact ⟨d, rfl⟩
    rw [hdef, ebind_ok] at h
    obtain ⟨v, hpod⟩ :
        ∃ v, prompt_or_default ni p var d = Except.ok v := by
      cases hh : prompt_or_default ni p var d with
      | error e => rw [hh, ebind_error] at h; exact Except.noConfusion h
      | ok v => exact ⟨v, rfl⟩
    rw [hpod, ebind_ok] at h
    cases hrec : ask_questions_loopT tmpl ni p rest (Vals.insert vs var.name v) with
    | error e => rw [hrec, emap_error] at h; exact Except.noConfusion h
    | ok out =>
      obtain ⟨v1, j1⟩ := out
      rw [hrec, emap_ok] at h
      simp only [Except.ok.injEq, Prod.mk.injEq] at h
      obtain ⟨hv, hj⟩ := h
      subst hv
      exact Or.inr ⟨d, v, j1, hask, hdef, hpod, hrec, hj.symm⟩

theorem loadT_cons_inv {tmpl : Template} {jm : JMap} {var : VarDecl}
    {rest : List VarDecl} {vs valsF : Vals} {ws wsF : List String} {js : List JsonJudgment}
    (h : load_values_loopT tmpl jm (var :: rest) vs ws = Except.ok (valsF, wsF, js)) :
    (∃ js', tmpl.should_ask_variable var.name vs = Except.ok false ∧
      JMap.containsKey jm var.name = true ∧
      load_values_loopT tmpl jm rest vs (ws ++ [only_if_warning var.name]) =
        Except.ok (valsF, wsF, js') ∧
      js = ⟨var, false, JMap.lookup jm var.name, none⟩ :: js') ∨
    (∃ jv v js', tmpl.should_ask_variable var.name vs = Except.ok true ∧
      JMap.lookup jm var.name = some jv ∧
      json_to_value var.name jv = Except.ok v ∧
      load_values_loopT tmpl jm rest (Vals.insert vs var.name v) ws =
        Except.ok (valsF, wsF, js') ∧
      js = ⟨var, true, some jv, some v⟩ :: js') ∨
    (∃ appl js', tmpl.should_ask_variable var.name vs = Except.ok appl ∧
      JMap.lookup jm var.name = none ∧
      (appl && !(Vals.containsKey vs var.name)) = false ∧
      load_values_loopT tmpl jm rest vs ws = Except.ok (valsF, wsF, js') ∧
      js = ⟨var, appl, none, none⟩ :: js') := by
  obtain ⟨applicable, hask⟩ :
      ∃ b, tmpl.should_ask_variable var.name vs = Except.ok b := by
    cases hh : tmpl.should_ask_variable var.name vs with
    | error e =>
      rw [load_values_loopT, hh, ebind_error] at h
      exact Except.noConfusion h
    | ok b => exact ⟨b, rfl⟩
  rw [load_values_loopT, hask, ebind_ok] at h
  by_cases hcond : (!applicable && JMap.containsKey jm var.name) = true
  · rw [if_pos hcond] at h
    simp only [Bool.and_eq_true, Bool.not_eq_true'] at hcond
    obtain ⟨happl, hcont⟩ := hcond
    subst happl
    cases hrec : load_values_loopT tmpl jm rest vs (ws ++ [only_if_warning var.name]) with
    | error e => rw [hrec, emap_error] at h; exact Except.noConfusion h
    | ok out =>
      obtain ⟨v1, w1, j1⟩ := out
      rw [hrec, emap_ok] at h
      simp only [Except.ok.injEq, Prod.mk.injEq] at h
      obtain ⟨hv, hw, hj⟩ := h
      subst hv; subst hw
      exact Or.inl ⟨j1, hask, hcont, rfl, hj.symm⟩
  · rw [if_neg hcond] at h
    cases hsup : JMap.lookup jm var.name with
    | some jv =>
      rw [hsup] at h
      simp only [] at h
      have happl : applicable = true := by
        cases applicable with
        | true => rfl
        | false => exact absurd (by simp [JMap.containsKey, hsup]) hcond
      subst happl
      obtain ⟨v, hconv⟩ :
          ∃ v, json_to_value var.name jv = Except.ok v := by
        cases hh : json_to_value var.name jv with
        | error e => rw [hh, ebind_error] at h; exact Except.noConfusion h
        | ok v => exact ⟨v, rfl⟩
      rw [hconv, ebind_ok] at h
      cases hrec : load_values_loopT tmpl jm rest (Vals.insert vs var.name v) ws with
      | error e => rw [hrec, emap_error] at h; exact Except.noConfusion h
      | ok out =>
        obtain ⟨v1, w1, j1⟩ := out
        rw [hrec, emap_ok] at h
        simp only [Except.ok.injEq, Prod.mk.injEq] at h
        obtain ⟨hv, hw, hj⟩ := h
        subst hv; subst hw
        exact Or.inr (Or.inl ⟨jv, v, j1, hask, rfl, hconv, hrec, hj.symm⟩)
    | none =>
      rw [hsup] at h
      simp only [hask, ebind_ok] at h
      by_cases hcond2 : (applicable && !(Vals.containsKey vs var.name)) = true
      · rw [if_pos hcond2] at h; exact Except.noConfusion h
      · rw [if_neg hcond2] at h
        cases hrec : load_values_loopT tmpl jm rest vs ws with
        | error e => rw [hrec, emap_error] at h; exact Except.noConfusion h
        | ok out =>
          obtain ⟨v1, w1, j1⟩ := out
          rw [hrec, emap_ok] at h
          simp only [Except.ok.injEq, Prod.mk.injEq] at h
          obtain ⟨hv, hw, hj⟩ := h
          subst hv; subst hw
          have hc2 : (applicable && !(Vals.containsKey vs var.name)) = false := by
            cases hcc : (applicable && !(Vals.containsKey vs var.name)) with
            | true => exact absurd hcc hcond2
            | false => rfl
          exact Or.inr (Or.inr ⟨applicable, j1, hask, rfl, hc2, rfl, hj.symm⟩)

/-! Characterization lemmas for the instrumented interactive/automatic loop. -/

@[simp]
theorem appliedNamesAsk_cons_true (var : VarDecl) (d v : Option Value) (js : List AskJudgment) :
    appliedNamesAsk (⟨var, true, d, v⟩ :: js) = var.name :: appliedNamesAsk js := rfl

@[simp]
theorem appliedNamesAsk_cons_false (var : VarDecl) (d v : Option Value) (js : List AskJudgment) :
    appliedNamesAsk (⟨var, false, d, v⟩ :: js) = appliedNamesAsk js := rfl

@[simp]
theorem appliedNamesJson_cons_true (var : VarDecl) (s : Option JVal) (v : Option Value)
    (js : List JsonJudgment) :
    appliedNamesJson (⟨var, true, s, v⟩ :: js) = var.name :: appliedNamesJson js := rfl

@[simp]
theorem appliedNamesJson_cons_false (var : VarDecl) (s : Option JVal) (v : Option Value)
    (js : List JsonJudgment) :
    appliedNamesJson (⟨var, false, s, v⟩ :: js) = appliedNamesJson js := rfl

theorem askT_nil_inv {tmpl : Template} {ni : Bool} {p : Prompter} {vs valsF : Vals}
    {js : List AskJudgment}
    (h : ask_questions_loopT tmpl ni p [] vs = Except.ok (valsF, js)) :
    valsF = vs ∧ js = [] := by
  simp only [ask_questions_loopT, Except.ok.injEq, Prod.mk.injEq] at h
  exact ⟨h.1.symm, h.2.symm⟩

theorem askT_vars (tmpl : Template) (ni : Bool) (p : Prompter) :
    ∀ (ds : List VarDecl) (vs valsF : Vals) (js : List AskJudgment),
    ask_questions_loopT tmpl ni p ds vs = Except.ok (valsF, js) →
    List.map AskJudgment.var js = ds := by
  intro ds
  induction ds with
  | nil =>
    intro vs valsF js h
    obtain ⟨-, hj⟩ := askT_nil_inv h
    subst hj; rfl
  | cons var rest ih =>
    intro vs valsF js h
    rcases askT_cons_inv h with
      ⟨js', hask, hrec, hj⟩ | ⟨d, v, js', hask, hdef, hpod, hrec, hj⟩
    · subst hj; simp [ih _ _ _ hrec]
    · subst hj; simp [ih _ _ _ hrec]

theorem askT_preserve (tmpl : Template) (ni : Bool) (p : Prompter) :
    ∀ (ds : List VarDecl) (vs valsF : Vals) (js : List AskJudgment),
    ask_questions_loopT tmpl ni p ds vs = Except.ok (valsF, js) →
    ∀ n : String, (∀ d ∈ ds, d.name ≠ n) → Vals.lookup valsF n = Vals.lookup vs n := by
  intro ds
  induction ds with
  | nil =>
    intro vs valsF js h n _
    obtain ⟨hv, -⟩ := askT_nil_inv h
    rw [hv]
  | cons var rest ih =>
    intro vs valsF js h n hn
    rcases askT_cons_inv h with
      ⟨js', hask, hrec, hj⟩ | ⟨d, v, js', hask, hdef, hpod, hrec, hj⟩
    · exact ih _ _ _ hrec n (fun d hd => hn d (List.mem_cons_of_mem _ hd))
    · rw [ih _ _ _ hrec n (fun d hd => hn d (List.mem_cons_of_mem _ hd))]
      rw [Vals.lookup_insert, if_neg (hn var (List.mem_cons_self _ _))]

theorem askT_domain (tmpl : Template) (ni : Bool) (p : Prompter) :
    ∀ (ds : List VarDecl) (vs valsF : Vals) (js : List AskJudgment),
    ask_questions_loopT tmpl ni p ds vs = Except.ok (valsF, js) →
    ∀ n : String,
      (Vals.lookup valsF n).isSome = true ↔
        (Vals.lookup vs n).isSome = true ∨ n ∈ appliedNamesAsk js := by
  intro ds
  induction ds with
  | nil =>
    intro vs valsF js h n
    obtain ⟨hv, hj⟩ := askT_nil_inv h
    subst hv; subst hj
    simp [appliedNamesAsk]
  | cons var rest ih =>
    intro vs valsF js h n
    rcases askT_cons_inv h with
      ⟨js', hask, hrec, hj⟩ | ⟨d, v, js', hask, hdef, hpod, hrec, hj⟩
    · subst hj
      rw [appliedNamesAsk_cons_false]
      exact ih _ _ _ hrec n
    · subst hj
      rw [appliedNamesAsk_cons_true]
      rw [ih _ _ _ hrec n]
      rw [Vals.lookup_insert]
      by_cases hEq : var.name = n
      · subst hEq
        simp
      · simp only [if_neg hEq, List.mem_cons]
        constructor
        · rintro (hl | hr)
          · exact Or.inl hl
          · exact Or.inr (Or.inr hr)
        · rintro (hl | hne | hr)
          · exact Or.inl hl
          · exact absurd hne.symm hEq
          · exact Or.inr hr

theorem askT_applied (tmpl : Template) (ni : Bool) (p : Prompter) :
    ∀ (ds : List VarDecl) (vs valsF : Vals) (js : List AskJudgment),
    ask_questions_loopT tmpl ni p ds vs = Except.ok (valsF, js) →
    ∀ j ∈ js, j.applicable = true →
      ∃ d v, j.defaultVal = some d ∧ j.resolved = some v ∧
        prompt_or_default ni p j.var d = Except.ok v ∧
        ∃ vsj : Vals, tmpl.should_ask_variable j.var.name vsj = Except.ok true ∧
          tmpl.get_default_for j.var.name vsj = Except.ok d := by
  intro ds
  induction ds with
  | nil =>
    intro vs valsF js h j hj
    obtain ⟨-, hjs⟩ := askT_nil_inv h
    subst hjs
    exact absurd hj (List.not_mem_nil j)
  | cons var rest ih =>
    intro vs valsF js h j hj happ
    rcases askT_cons_inv h with
      ⟨js', hask, hrec, hcons⟩ | ⟨d, v, js', hask, hdef, hpod, hrec, hcons⟩
    · subst hcons
      rcases List.mem_cons.mp hj with hhead | htail
      · subst hhead; exact absurd happ (by simp)
      · exact ih _ _ _ hrec j htail happ
    · subst hcons
      rcases List.mem_cons.mp hj with hhead | htail
      · subst hhead
        exact ⟨d, v, rfl, rfl, hpod, vs, hask, hdef⟩
      · exact ih _ _ _ hrec j htail happ

theorem askT_final_lookup (tmpl : Template) (ni : Bool) (p : Prompter) :
    ∀ (ds : List VarDecl) (vs valsF : Vals) (js : List AskJudgment),
    ask_questions_loopT tmpl ni p ds vs = Except.ok (valsF, js) →
    (List.map VarDecl.name ds).Nodup →
    (∀ d ∈ ds, Vals.lookup vs d.name = none) →
    ∀ j ∈ js, Vals.lookup valsF j.var.name = j.resolved := by
  intro ds
  induction ds with
  | nil =>
    intro vs valsF js h _ _ j hj
    obtain ⟨-, hjs⟩ := askT_nil_inv h
    subst hjs
    exact absurd hj (List.not_mem_nil j)
  | cons var rest ih =>
    intro vs valsF js h hnd hdisj j hj
    rw [List.map_cons] at hnd
    obtain ⟨hnotin, hndrest⟩ := List.nodup_cons.mp hnd
    rcases askT_cons_inv h with
      ⟨js', hask, hrec, hcons⟩ | ⟨d, v, js', hask, hdef, hpod, hrec, hcons⟩
    · subst hcons
      rcases List.mem_cons.mp hj with hhead | htail
      · subst hhead
        have hpres := askT_preserve tmpl ni p rest _ _ _ hrec var.name
          (fun d hd hEq => hnotin (by rw [← hEq]; exact List.mem_map_of_mem VarDecl.name hd))
        rw [hpres]
        exact hdisj var (List.mem_cons_self _ _)
      · exact ih _ _ _ hrec hndrest
          (fun d hd => hdisj d (List.mem_cons_of_mem _ hd)) j htail
    · subst hcons
      rcases List.mem_cons.mp hj with hhead | htail
      · subst hhead
        have hpres := askT_preserve tmpl ni p rest _ _ _ hrec var.name
          (fun d hd hEq => hnotin (by rw [← hEq]; exact List.mem_map_of_mem VarDecl.name hd))
        rw [hpres, Vals.lookup_insert, if_pos rfl]
      · refine ih _ _ _ hrec hndrest ?_ j htail
        intro d hd
        rw [Vals.lookup_insert,
          if_neg (fun hEq => hnotin (by rw [hEq]; exact List.mem_map_of_mem VarDecl.name hd))]
        exact hdisj d (List.mem_cons_of_mem _ hd)

theorem askT_entries (tmpl : Template) (ni : Bool) (p : Prompter) :
    ∀ (ds : List VarDecl) (vs valsF : Vals) (js : List AskJudgment),
    ask_questions_loopT tmpl ni p ds vs = Except.ok (valsF, js) →
    ∀ e ∈ valsF, e ∈ vs ∨ e.1 ∈ List.map VarDecl.name ds := by
  intro ds
  induction ds with
  | nil =>
    intro vs valsF js h e he
    obtain ⟨hv, -⟩ := askT_nil_inv h
    subst hv
    exact Or.inl he
  | cons var rest ih =>
    intro vs valsF js h e he
    rcases askT_cons_inv h with
      ⟨js', hask, hrec, hcons⟩ | ⟨d, v, js', hask, hdef, hpod, hrec, hcons⟩
    · rcases ih _ _ _ hrec e he with hl | hr
      · exact Or.inl hl
      · exact Or.inr (by simpa using Or.inr (by simpa using hr))
    · rcases ih _ _ _ hrec e he with hl | hr
      · rcases List.mem_cons.mp hl with hhead | htail
        · subst hhead
          exact Or.inr (by simp)
        · exact Or.inl htail
      · exact Or.inr (by simpa using Or.inr (by simpa using hr))

/-! Characterization lemmas for the instrumented JSON-input loop. -/

theorem loadT_nil_inv {tmpl : Template} {jm : JMap} {vs valsF : Vals}
    {ws wsF : List String} {js : List JsonJudgment}
    (h : load_values_loopT tmpl jm [] vs ws = Except.ok (valsF, wsF, js)) :
    valsF = vs ∧ wsF = ws ∧ js = [] := by
  simp only [load_values_loopT, Except.ok.injEq, Prod.mk.injEq] at h
  exact ⟨h.1.symm, h.2.1.symm, h.2.2.symm⟩

theorem loadT_vars (tmpl : Template) (jm : JMap) :
    ∀ (ds : List VarDecl) (vs valsF : Vals) (ws wsF : List String) (js : List JsonJudgment),
    load_values_loopT tmpl jm ds vs ws = Except.ok (valsF, wsF, js) →
    List.map JsonJudgment.var js = ds := by
  intro ds
  induction ds with
  | nil =>
    intro vs valsF ws wsF js h
    obtain ⟨-, -, hj⟩ := loadT_nil_inv h
    subst hj; rfl
  | cons var rest ih =>
    intro vs valsF ws wsF js h
    rcases loadT_cons_inv h with
      ⟨js', hask, hcont, hrec, hcons⟩ | ⟨jv, v, js', hask, hsup, hconv, hrec, hcons⟩ |
      ⟨appl, js', hask, hsup, hc2, hrec, hcons⟩
    · subst hcons; simp [ih _ _ _ _ _ hrec]
    · subst hcons; simp [ih _ _ _ _ _ hrec]
    · subst hcons; simp [ih _ _ _ _ _ hrec]

theorem loadT_preserve (tmpl : Template) (jm : JMap) :
    ∀ (ds : List VarDecl) (vs valsF : Vals) (ws wsF : List String) (js : List JsonJudgment),
    load_values_loopT tmpl jm ds vs ws = Except.ok (valsF, wsF, js) →
    ∀ n : String, (∀ d ∈ ds, d.name ≠ n) → Vals.lookup valsF n = Vals.lookup vs n := by
  intro ds
  induction ds with
  | nil =>
    intro vs valsF ws wsF js h n _
    obtain ⟨hv, -, -⟩ := loadT_nil_inv h
    rw [hv]
  | cons var rest ih =>
    intro vs valsF ws wsF js h n hn
    rcases loadT_cons_inv h with
      ⟨js', hask, hcont, hrec, hcons⟩ | ⟨jv, v, js', hask, hsup, hconv, hrec, hcons⟩ |
      ⟨appl, js', hask, hsup, hc2, hrec, hcons⟩
    · exact ih _ _ _ _ _ hrec n (fun d hd => hn d (List.mem_cons_of_mem _ hd))
    · rw [ih _ _ _ _ _ hrec n (fun d hd => hn d (List.mem_cons_of_mem _ hd))]
      rw [Vals.lookup_insert, if_neg (hn var (List.mem_cons_self _ _))]
    · exact ih _ _ _ _ _ hrec n (fun d hd => hn d (List.mem_cons_of_mem _ hd))

theorem loadT_domain (tmpl : Template) (jm : JMap) :
    ∀ (ds : List VarDecl) (vs valsF : Vals) (ws wsF : List String) (js : List JsonJudgment),
    load_values_loopT tmpl jm ds vs ws = Except.ok (valsF, wsF, js) →
    ∀ n : String,
      (Vals.lookup valsF n).isSome = true ↔
        (Vals.lookup vs n).isSome = true ∨ n ∈ appliedNamesJson js := by
  intro ds
  induction ds with
  | nil =>
    intro vs valsF ws wsF js h n
    obtain ⟨hv, -, hj⟩ := loadT_nil_inv h
    subst hv; subst hj
    simp [appliedNamesJson]
  | cons var rest ih =>
    intro vs valsF ws wsF js h n
    rcases loadT_cons_inv h with
      ⟨js', hask, hcont, hrec, hcons⟩ | ⟨jv, v, js', hask, hsup, hconv, hrec, hcons⟩ |
      ⟨appl, js', hask, hsup, hc2, hrec, hcons⟩
    · subst hcons
      rw [appliedNamesJson_cons_false]
      exact ih _ _ _ _ _ hrec n
    · subst hcons
      rw [appliedNamesJson_cons_true]
      rw [ih _ _ _ _ _ hrec n, Vals.lookup_insert]
      by_cases hEq : var.name = n
      · subst hEq; simp
      · simp only [if_neg hEq, List.mem_cons]
        constructor
        · rintro (hl | hr)
          · exact Or.inl hl
          · exact Or.inr (Or.inr hr)
        · rintro (hl | hne | hr)
          · exact Or.inl hl
          · exact absurd hne.symm hEq
          · exact Or.inr hr
    · subst hcons
      cases appl with
      | false =>
        rw [appliedNamesJson_cons_false]
        exact ih _ _ _ _ _ hrec n
      | true =>
        rw [appliedNamesJson_cons_true]
        have hkey : (Vals.lookup vs var.name).isSome = true := by
          simp only [Bool.true_and, Bool.not_eq_false', Vals.containsKey] at hc2
          exact hc2
        rw [ih _ _ _ _ _ hrec n, List.mem_cons]
        constructor
        · rintro (hl | hr)
          · exact Or.inl hl
          · exact Or.inr (Or.inr hr)
        · rintro (hl | hne | hr)
          · exact Or.inl hl
          · exact Or.inl (by rw [hne]; exact hkey)
          · exact Or.inr hr

theorem loadT_applied (tmpl : Template) (jm : JMap) :
    ∀ (ds : List VarDecl) (vs valsF : Vals) (ws wsF : List String) (js : List JsonJudgment),
    load_values_loopT tmpl jm ds vs ws = Except.ok (valsF, wsF, js) →
    (List.map VarDecl.name ds).Nodup →
    (∀ d ∈ ds, Vals.lookup vs d.name = none) →
    ∀ j ∈ js, j.applicable = true →
      ∃ jv v, j.supplied = some jv ∧ j.resolved = some v ∧
        JMap.lookup jm j.var.name = some jv ∧
        json_to_value j.var.name jv = Except.ok v ∧
        ∃ vsj : Vals, tmpl.should_ask_variable j.var.name vsj = Except.ok true := by
  intro ds
  induction ds with
  | nil =>
    intro vs valsF ws wsF js h _ _ j hj
    obtain ⟨-, -, hjs⟩ := loadT_nil_inv h
    subst hjs
    exact absurd hj (List.not_mem_nil j)
  | cons var rest ih =>
    intro vs valsF ws wsF js h hnd hdisj j hj happ
    rw [List.map_cons] at hnd
    obtain ⟨hnotin, hndrest⟩ := List.nodup_cons.mp hnd
    rcases loadT_cons_inv h with
      ⟨js', hask, hcont, hrec, hcons⟩ | ⟨jv, v, js', hask, hsup, hconv, hrec, hcons⟩ |
      ⟨appl, js', hask, hsup, hc2, hrec, hcons⟩
    · subst hcons
      rcases List.mem_cons.mp hj with hhead | htail
      · subst hhead; exact absurd happ (by simp)
      · exact ih _ _ _ _ _ hrec hndrest
          (fun d hd => hdisj d (List.mem_cons_of_mem _ hd)) j htail happ
    · subst hcons
      rcases List.mem_cons.mp hj with hhead | htail
      · subst hhead
        exact ⟨jv, v, rfl, rfl, hsup, hconv, vs, hask⟩
      · refine ih _ _ _ _ _ hrec hndrest ?_ j htail happ
        intro d hd
        rw [Vals.lookup_insert,
          if_neg (fun hEq => hnotin (by rw [hEq]; exact List.mem_map_of_mem VarDecl.name hd))]
        exact hdisj d (List.mem_cons_of_mem _ hd)
    · subst hcons
      rcases List.mem_cons.mp hj with hhead | htail
      · subst hhead
        have happl : appl = true := happ
        subst happl
        simp only [Vals.containsKey] at hc2
        rw [hdisj var (List.mem_cons_self _ _)] at hc2
        exact absurd hc2 (by simp)
      · exact ih _ _ _ _ _ hrec hndrest
          (fun d hd => hdisj d (List.mem_cons_of_mem _ hd)) j htail happ

theorem loadT_final_lookup (tmpl : Template) (jm : JMap) :
    ∀ (ds : List VarDecl) (vs valsF : Vals) (ws wsF : List String) (js : List JsonJudgment),
    load_values_loopT tmpl jm ds vs ws = Except.ok (valsF, wsF, js) →
    (List.map VarDecl.name ds).Nodup →
    (∀ d ∈ ds, Vals.lookup vs d.name = none) →
    ∀ j ∈ js, Vals.lookup valsF j.var.name = j.resolved := by
  intro ds
  induction ds with
  | nil =>
    intro vs valsF ws wsF js h _ _ j hj
    obtain ⟨-, -, hjs⟩ := loadT_nil_inv h
    subst hjs
    exact absurd hj (List.not_mem_nil j)
  | cons var rest ih =>
    intro vs valsF ws wsF js h hnd hdisj j hj
    rw [List.map_cons] at hnd
    obtain ⟨hnotin, hndrest⟩ := List.nodup_cons.mp hnd
    rcases loadT_cons_inv h with
      ⟨js', hask, hcont, hrec, hcons⟩ | ⟨jv, v, js', hask, hsup, hconv, hrec, hcons⟩ |
      ⟨appl, js', hask, hsup, hc2, hrec, hcons⟩
    · subst hcons
      rcases List.mem_cons.mp hj with hhead | htail
      · subst hhead
        have hpres := loadT_preserve tmpl jm rest _ _ _ _ _ hrec var.name
          (fun d hd hEq => hnotin (by rw [← hEq]; exact List.mem_map_of_mem VarDecl.name hd))
        rw [hpres]
        exact hdisj var (List.mem_cons_self _ _)
      · exact ih _ _ _ _ _ hrec hndrest
          (fun d hd => hdisj d (List.mem_cons_of_mem _ hd)) j htail
    · subst hcons
      rcases List.mem_cons.mp hj with hhead | htail
      · subst hhead
        have hpres := loadT_preserve tmpl jm rest _ _ _ _ _ hrec var.name
          (fun d hd hEq => hnotin (by rw [← hEq]; exact List.mem_map_of_mem VarDecl.name hd))
        rw [hpres, Vals.lookup_insert, if_pos rfl]
      · refine ih _ _ _ _ _ hrec hndrest ?_ j htail
        intro d hd
        rw [Vals.lookup_insert,
          if_neg (fun hEq => hnotin (by rw [hEq]; exact List.mem_map_of_mem VarDecl.name hd))]
        exact hdisj d (List.mem_cons_of_mem _ hd)
    · subst hcons
      rcases List.mem_cons.mp hj with hhead | htail
      · subst hhead
        have hpres := loadT_preserve tmpl jm rest _ _ _ _ _ hrec var.name
          (fun d hd hEq => hnotin (by rw [← hEq]; exact List.mem_map_of_mem VarDecl.name hd))
        rw [hpres]
        exact hdisj var (List.mem_cons_self _ _)
      · exact ih _ _ _ _ _ hrec hndrest
          (fun d hd => hdisj d (List.mem_cons_of_mem _ hd)) j htail

theorem loadT_entries (tmpl : Template) (jm : JMap) :
    ∀ (ds : List VarDecl) (vs valsF : Vals) (ws wsF : List String) (js : List JsonJudgment),
    load_values_loopT tmpl jm ds vs ws = Except.ok (valsF, wsF, js) →
    ∀ e ∈ valsF, e ∈ vs ∨ e.1 ∈ List.map VarDecl.name ds := by
  intro ds
  induction ds with
  | nil =>
    intro vs valsF ws wsF js h e he
    obtain ⟨hv, -, -⟩ := loadT_nil_inv h
    subst hv
    exact Or.inl he
  | cons var rest ih =>
    intro vs valsF ws wsF js h e he
    rcases loadT_cons_inv h with
      ⟨js', hask, hcont, hrec, hcons⟩ | ⟨jv, v, js', hask, hsup, hconv, hrec, hcons⟩ |
      ⟨appl, js', hask, hsup, hc2, hrec, hcons⟩
    · rcases ih _ _ _ _ _ hrec e he with hl | hr
      · exact Or.inl hl
      · exact Or.inr (by simp [hr])
    · rcases ih _ _ _ _ _ hrec e he with hl | hr
      · rcases List.mem_cons.mp hl with hhead | htail
        · subst hhead
          exact Or.inr (by simp)
        · exact Or.inl htail
      · exact Or.inr (by simp [hr])
    · rcases ih _ _ _ _ _ hrec e he with hl | hr
      · exact Or.inl hl
      · exact Or.inr (by simp [hr])

/-! Lemmas about the acquisition dispatch and JSON conversion. -/

theorem emap_ok_inv {α β : Type} {x : Except String α} {f : α → β} {b : β}
    (h : x.map f = Except.ok b) : ∃ a, x = Except.ok a ∧ b = f a := by
  cases x with
  | error e => simp at h
  | ok a =>
    rw [emap_ok] at h
    refine ⟨a, rfl, ?_⟩
    cases h
    rfl

/-- In automatic mode every prompt is short-circuited: the acquisition
dispatch returns the computed default unchanged, whatever the prompter. -/
theorem pod_auto (p : Prompter) (var : VarDecl) (d : Value) :
    prompt_or_default true p var d = Except.ok d := by
  cases d with
  | String s =>
    cases hc : var.choices with
    | some cs => simp [prompt_or_default, hc]
    | none => simp [prompt_or_default, hc]
  | Boolean b => simp [prompt_or_default]
  | Integer i => simp [prompt_or_default]

/-- The acquisition dispatch preserves the variant of the default, provided
`ask_choices` honours its §6 contract of returning a string. -/
theorem pod_variant {ni : Bool} {p : Prompter} {var : VarDecl} {d v : Value}
    (hcc : ∀ (pr : String) (dv : Value) (cs : List String) (w : Value),
      p.ask_choices pr dv cs = Except.ok w → ∃ s, w = Value.String s)
    (h : prompt_or_default ni p var d = Except.ok v) :
    Value.sameVariant v d = true := by
  cases d with
  | String s =>
    cases hc : var.choices with
    | some cs =>
      cases ni with
      | true =>
        rw [pod_auto] at h
        cases h
        rfl
      | false =>
        simp only [prompt_or_default, hc, Bool.false_eq_true, if_false] at h
        obtain ⟨t, ht⟩ := hcc _ _ _ _ h
        subst ht
        rfl
    | none =>
      simp only [prompt_or_default, hc] at h
      obtain ⟨r, -, hv⟩ := emap_ok_inv h
      subst hv
      rfl
  | Boolean b =>
    simp only [prompt_or_default] at h
    obtain ⟨r, -, hv⟩ := emap_ok_inv h
    subst hv
    rfl
  | Integer i =>
    simp only [prompt_or_default] at h
    obtain ⟨r, -, hv⟩ := emap_ok_inv h
    subst hv
    rfl

/-- A successful JSON conversion is exactly one of: string, boolean, or
i64-representable number, with the matching Value variant. -/
theorem json_to_value_shape {name : String} {jv : JVal} {v : Value}
    (h : json_to_value name jv = Except.ok v) :
    (∃ s, jv = JVal.jstr s ∧ v = Value.String s) ∨
    (∃ b, jv = JVal.jbool b ∧ v = Value.Boolean b) ∨
    (∃ i, jv = JVal.jnum (some i) ∧ v = Value.Integer i) := by
  cases jv with
  | jstr s =>
    rw [json_to_value] at h
    cases h
    exact Or.inl ⟨s, rfl, rfl⟩
  | jbool b =>
    rw [json_to_value] at h
    cases h
    exact Or.inr (Or.inl ⟨b, rfl, rfl⟩)
  | jnum n =>
    cases n with
    | some i =>
      have hval : json_to_value name (JVal.jnum (some i)) = Except.ok (Value.Integer i) := rfl
      rw [hval] at h
      cases h
      exact Or.inr (Or.inr ⟨i, rfl, rfl⟩)
    | none => simp [json_to_value, numberToValue, JNumber.is_i64] at h
  | jnull => simp [json_to_value] at h
  | jarr => simp [json_to_value] at h
  | jobj fields => simp [json_to_value] at h

/-! Round-trip lemmas: re-feeding a serialized resolved mapping through the
JSON-input loop reproduces the mapping exactly. -/

theorem rt_from_ask (tmpl : Template) (ni : Bool) (p : Prompter) :
    ∀ (ds : List VarDecl) (vs valsF : Vals) (js : List AskJudgment) (jm : JMap)
      (ws : List String),
    ask_questions_loopT tmpl ni p ds vs = Except.ok (valsF, js) →
    (List.map VarDecl.name ds).Nodup →
    (∀ d ∈ ds, Vals.lookup vs d.name = none) →
    (∀ d ∈ ds, JMap.lookup jm d.name = Option.map Value.toJson (Vals.lookup valsF d.name)) →
    load_values_loop tmpl jm ds vs ws = Except.ok (valsF, ws) := by
  intro ds
  induction ds with
  | nil =>
    intro vs valsF js jm ws h _ _ _
    obtain ⟨hv, -⟩ := askT_nil_inv h
    subst hv
    rfl
  | cons var rest ih =>
    intro vs valsF js jm ws h hnd hdisj hjm
    rw [List.map_cons] at hnd
    obtain ⟨hnotin, hndrest⟩ := List.nodup_cons.mp hnd
    rcases askT_cons_inv h with
      ⟨js', hask, hrec, hcons⟩ | ⟨d, v, js', hask, hdef, hpod, hrec, hcons⟩
    · have hfin : Vals.lookup valsF var.name = none := by
        rw [askT_preserve tmpl ni p rest _ _ _ hrec var.name
          (fun d hd hEq => hnotin (by rw [← hEq]; exact List.mem_map_of_mem VarDecl.name hd))]
        exact hdisj var (List.mem_cons_self _ _)
      have hjmn : JMap.lookup jm var.name = none := by
        rw [hjm var (List.mem_cons_self _ _), hfin]
        rfl
      rw [load_step_absent_inapplicable hask hjmn]
      exact ih _ _ _ jm ws hrec hndrest
        (fun d hd => hdisj d (List.mem_cons_of_mem _ hd))
        (fun d hd => hjm d (List.mem_cons_of_mem _ hd))
    · have hfin : Vals.lookup valsF var.name = some v := by
        rw [askT_preserve tmpl ni p rest _ _ _ hrec var.name
          (fun d hd hEq => hnotin (by rw [← hEq]; exact List.mem_map_of_mem VarDecl.name hd))]
        rw [Vals.lookup_insert, if_pos rfl]
      have hjms : JMap.lookup jm var.name = some (Value.toJson v) := by
        rw [hjm var (List.mem_cons_self _ _), hfin]
        rfl
      rw [load_step_supplied hask hjms (json_to_value_toJson var.name v)]
      refine ih _ _ _ jm ws hrec hndrest ?_
        (fun d hd => hjm d (List.mem_cons_of_mem _ hd))
      intro d hd
      rw [Vals.lookup_insert,
        if_neg (fun hEq => hnotin (by rw [hEq]; exact List.mem_map_of_mem VarDecl.name hd))]
      exact hdisj d (List.mem_cons_of_mem _ hd)

theorem rt_from_json (tmpl : Template) (jm0 : JMap) :
    ∀ (ds : List VarDecl) (vs valsF : Vals) (ws0 wsF : List String)
      (js : List JsonJudgment) (jm : JMap) (ws : List String),
    load_values_loopT tmpl jm0 ds vs ws0 = Except.ok (valsF, wsF, js) →
    (List.map VarDecl.name ds).Nodup →
    (∀ d ∈ ds, Vals.lookup vs d.name = none) →
    (∀ d ∈ ds, JMap.lookup jm d.name = Option.map Value.toJson (Vals.lookup valsF d.name)) →
    load_values_loop tmpl jm ds vs ws = Except.ok (valsF, ws) := by
  intro ds
  induction ds with
  | nil =>
    intro vs valsF ws0 wsF js jm ws h _ _ _
    obtain ⟨hv, -, -⟩ := loadT_nil_inv h
    subst hv
    rfl
  | cons var rest ih =>
    intro vs valsF ws0 wsF js jm ws h hnd hdisj hjm
    rw [List.map_cons] at hnd
    obtain ⟨hnotin, hndrest⟩ := List.nodup_cons.mp hnd
    have hpresfun : ∀ (valsG : Vals) (wsG : List String) (jsG : List JsonJudgment)
        (vsG : Vals) (wsI : List String),
        load_values_loopT tmpl jm0 rest vsG wsI = Except.ok (valsG, wsG, jsG) →
        Vals.lookup valsG var.name = Vals.lookup vsG var.name :=
      fun valsG wsG jsG vsG wsI hr =>
        loadT_preserve tmpl jm0 rest vsG valsG wsI wsG jsG hr var.name
          (fun d hd hEq => hnotin (by rw [← hEq]; exact List.mem_map_of_mem VarDecl.name hd))
    rcases loadT_cons_inv h with
      ⟨js', hask, hcont, hrec, hcons⟩ | ⟨jv, v, js', hask, hsup, hconv, hrec, hcons⟩ |
      ⟨appl, js', hask, hsup, hc2, hrec, hcons⟩
    · have hfin : Vals.lookup valsF var.name = none := by
        rw [hpresfun _ _ _ _ _ hrec]
        exact hdisj var (List.mem_cons_self _ _)
      have hjmn : JMap.lookup jm var.name = none := by
        rw [hjm var (List.mem_cons_self _ _), hfin]
        rfl
      rw [load_step_absent_inapplicable hask hjmn]
      exact ih _ _ _ _ _ jm ws hrec hndrest
        (fun d hd => hdisj d (List.mem_cons_of_mem _ hd))
        (fun d hd => hjm d (List.mem_cons_of_mem _ hd))
    · have hfin : Vals.lookup valsF var.name = some v := by
        rw [hpresfun _ _ _ _ _ hrec, Vals.lookup_insert, if_pos rfl]
      have hjms : JMap.lookup jm var.name = some (Value.toJson v) := by
        rw [hjm var (List.mem_cons_self _ _), hfin]
        rfl
      rw [load_step_supplied hask hjms (json_to_value_toJson var.name v)]
      refine ih _ _ _ _ _ jm ws hrec hndrest ?_
        (fun d hd => hjm d (List.mem_cons_of_mem _ hd))
      intro d hd
      rw [Vals.lookup_insert,
        if_neg (fun hEq => hnotin (by rw [hEq]; exact List.mem_map_of_mem VarDecl.name hd))]
      exact hdisj d (List.mem_cons_of_mem _ hd)
    · cases appl with
      | true =>
        simp only [Vals.containsKey] at hc2
        rw [hdisj var (List.mem_cons_self _ _)] at hc2
        exact absurd hc2 (by simp)
      | false =>
        have hfin : Vals.lookup valsF var.name = none := by
          rw [hpresfun _ _ _ _ _ hrec]
          exact hdisj var (List.mem_cons_self _ _)
        have hjmn : JMap.lookup jm var.name = none := by
          rw [hjm var (List.mem_cons_self _ _), hfin]
          rfl
        rw [load_step_absent_inapplicable hask hjmn]
        exact ih _ _ _ _ _ jm ws hrec hndrest
          (fun d hd => hdisj d (List.mem_cons_of_mem _ hd))
          (fun d hd => hjm d (List.mem_cons_of_mem _ hd))

/-- If every key of the input object is a declared variable name, no
unknown-variable warning is emitted. -/
theorem unknownKeyWarnings_nil (tmpl : Template) (jm : JMap)
    (h : ∀ kv ∈ jm, (tmpl.variables.any (fun v => v.name = kv.1)) = true) :
    unknownKeyWarnings tmpl jm = [] := by
  rw [unknownKeyWarnings]
  rw [List.filterMap_eq_nil_iff]
  intro kv hkv
  rw [h kv hkv]
  rfl

/-! Lemmas for the hook phases of `try_main`. -/

theorem run_hook_phase_fail (env : HookEnv) :
    ∀ (good : List HookFile) (h : HookFile) (after : List HookFile),
    (∀ g ∈ good, env.status g = Except.ok true) →
    env.status h = Except.ok false →
    run_hook_phase env (good ++ h :: after) =
      (List.map (fun g => Event.hookStarted g.name) good ++ [Event.hookStarted h.name],
       some (hook_failure_msg h.name)) := by
  intro good
  induction good with
  | nil =>
    intro h after _ hfail
    rw [List.nil_append, run_hook_phase, execute_hook, hfail]
    rfl
  | cons g rest ih =>
    intro h after hgood hfail
    rw [List.cons_append, run_hook_phase, execute_hook,
      hgood g (List.mem_cons_self _ _)]
    rw [ih h after (fun g hg => hgood g (List.mem_cons_of_mem _ hg)) hfail]
    rfl

theorem run_hook_phase_no_generated (env : HookEnv) :
    ∀ (hooks : List HookFile), Event.generated ∉ (run_hook_phase env hooks).1 := by
  intro hooks
  induction hooks with
  | nil => simp [run_hook_phase]
  | cons h rest ih =>
    rw [run_hook_phase]
    cases hst : execute_hook env h with
    | error e => simp
    | ok u => simpa using ih

/-- A failing pre-generation hook stops its phase, prevents generation and the
post-generation phase: the trace stops at the failing hook and carries its
error. -/
theorem generation_phase_pre_fail (env : HookEnv) (genResult : Except String Unit)
    (good : List HookFile) (h : HookFile) (after post : List HookFile)
    (hgood : ∀ g ∈ good, env.status g = Except.ok true)
    (hfail : env.status h = Except.ok false) :
    generation_phase true env genResult (good ++ h :: after) post =
      (List.map (fun g => Event.hookStarted g.name) good ++ [Event.hookStarted h.name],
       some (hook_failure_msg h.name)) := by
  have hne : (good ++ h :: after).isEmpty = false := by
    cases good <;> rfl
  have hrun := run_hook_phase_fail env good h after hgood hfail
  simp [generation_phase, hne, hrun]

/-! The JSON-input loop never consults the default computation: its result is
invariant under replacing `get_default_for`. -/

@[simp]
theorem template_update_should_ask (tmpl : Template)
    (f : String → Vals → Except String Value) :
    ({ tmpl with get_default_for := f } : Template).should_ask_variable =
      tmpl.should_ask_variable := rfl

@[simp]
theorem template_update_vars (tmpl : Template)
    (f : String → Vals → Except String Value) :
    ({ tmpl with get_default_for := f } : Template).variables = tmpl.variables := rfl

theorem load_loop_ignores_defaults (tmpl : Template)
    (f : String → Vals → Except String Value) (jm : JMap) :
    ∀ (ds : List VarDecl) (vs : Vals) (ws : List String),
    load_values_loop { tmpl with get_default_for := f } jm ds vs ws =
      load_values_loop tmpl jm ds vs ws := by
  intro ds
  induction ds with
  | nil => intro vs ws; rfl
  | cons var rest ih =>
    intro vs ws
    rw [load_values_loop, load_values_loop, template_update_should_ask]
    congr 1
    funext applicable
    by_cases hc : (!applicable && JMap.containsKey jm var.name) = true
    · rw [if_pos hc, if_pos hc, ih]
    · rw [if_neg hc, if_neg hc]
      cases JMap.lookup jm var.name with
      | some jv =>
        simp only []
        congr 1
        funext v
        exact ih _ _
      | none =>
        simp only [template_update_should_ask]
        congr 1
        funext applicable2
        by_cases hc2 : (applicable2 && !(Vals.containsKey vs var.name)) = true
        · rw [if_pos hc2, if_pos hc2]
        · rw [if_neg hc2, if_neg hc2, ih]

theorem load_values_ignores_defaults (tmpl : Template)
    (f : String → Vals → Except String Value) (root : JVal) :
    load_values_from_json_file { tmpl with get_default_for := f } root =
      load_values_from_json_file tmpl root := by
  cases root <;>
    first
      | rfl
      | exact load_loop_ignores_defaults tmpl f _ tmpl.variables [] (unknownKeyWarnings tmpl _)

/-- In automatic mode the interactive loop never consults the prompter. -/
theorem ask_loop_auto_prompter (tmpl : Template) (p q : Prompter) :
    ∀ (ds : List VarDecl) (vs : Vals),
    ask_questions_loop tmpl true p ds vs = ask_questions_loop tmpl true q ds vs := by
  intro ds
  induction ds with
  | nil => intro vs; rfl
  | cons var rest ih =>
    intro vs
    rw [ask_questions_loop, ask_questions_loop]
    congr 1
    funext applicable
    by_cases hc : (!applicable) = true
    · rw [if_pos hc, if_pos hc, ih]
    · rw [if_neg hc, if_neg hc]
      congr 1
      funext d
      rw [pod_auto p var d, pod_auto q var d, ebind_ok, ebind_ok, ih]

/-- Judgments of inapplicable declarations in the interactive/automatic loop
carry no default and no resolved value. -/
theorem askT_inapplicable (tmpl : Template) (ni : Bool) (p : Prompter) :
    ∀ (ds : List VarDecl) (vs valsF : Vals) (js : List AskJudgment),
    ask_questions_loopT tmpl ni p ds vs = Except.ok (valsF, js) →
    ∀ j ∈ js, j.applicable = false →
      j.defaultVal = none ∧ j.resolved = none ∧
        ∃ vsj : Vals, tmpl.should_ask_variable j.var.name vsj = Except.ok false := by
  intro ds
  induction ds with
  | nil =>
    intro vs valsF js h j hj
    obtain ⟨-, hjs⟩ := askT_nil_inv h
    subst hjs
    exact absurd hj (List.not_mem_nil j)
  | cons var rest ih =>
    intro vs valsF js h j hj hna
    rcases askT_cons_inv h with
      ⟨js', hask, hrec, hcons⟩ | ⟨d, v, js', hask, hdef, hpod, hrec, hcons⟩
    · subst hcons
      rcases List.mem_cons.mp hj with hhead | htail
      · subst hhead
        exact ⟨rfl, rfl, vs, hask⟩
      · exact ih _ _ _ hrec j htail hna
    · subst hcons
      rcases List.mem_cons.mp hj with hhead | htail
      · subst hhead; exact absurd hna (by simp)
      · exact ih _ _ _ hrec j htail hna

/-- Judgments of inapplicable declarations in the JSON-input loop carry no
resolved value. -/
theorem loadT_inapplicable (tmpl : Template) (jm : JMap) :
    ∀ (ds : List VarDecl) (vs valsF : Vals) (ws wsF : List String) (js : List JsonJudgment),
    load_values_loopT tmpl jm ds vs ws = Except.ok (valsF, wsF, js) →
    ∀ j ∈ js, j.applicable = false →
      j.resolved = none ∧
        ∃ vsj : Vals, tmpl.should_ask_variable j.var.name vsj = Except.ok false := by
  intro ds
  induction ds with
  | nil =>
    intro vs valsF ws wsF js h j hj
    obtain ⟨-, -, hjs⟩ := loadT_nil_inv h
    subst hjs
    exact absurd hj (List.not_mem_nil j)
  | cons var rest ih =>
    intro vs valsF ws wsF js h j hj hna
    rcases loadT_cons_inv h with
      ⟨js', hask, hcont, hrec, hcons⟩ | ⟨jv, v, js', hask, hsup, hconv, hrec, hcons⟩ |
      ⟨appl, js', hask, hsup, hc2, hrec, hcons⟩
    · subst hcons
      rcases List.mem_cons.mp hj with hhead | htail
      · subst hhead
        exact ⟨rfl, vs, hask⟩
      · exact ih _ _ _ _ _ hrec j htail hna
    · subst hcons
      rcases List.mem_cons.mp hj with hhead | htail
      · subst hhead; exact absurd hna (by simp)
      · exact ih _ _ _ _ _ hrec j htail hna
    · subst hcons
      rcases List.mem_cons.mp hj with hhead | htail
      · subst hhead
        have happl : appl = false := hna
        subst happl
        exact ⟨rfl, vs, hask⟩
      · exact ih _ _ _ _ _ hrec j htail hna

/-- With a declared choice set, the acquisition dispatch yields a member of
the choice set — given the §6 `ask_choices` contract and a default that is
itself a member. -/
theorem pod_choices {ni : Bool} {p : Prompter} {var : VarDecl} {cs : List String}
    {s : String} {v : Value}
    (hcc : ∀ (pr : String) (dv : Value) (csx : List String) (w : Value),
      p.ask_choices pr dv csx = Except.ok w → ∃ t, w = Value.String t ∧ t ∈ csx)
    (hc : var.choices = some cs) (hs : s ∈ cs)
    (h : prompt_or_default ni p var (Value.String s) = Except.ok v) :
    ∃ t, v = Value.String t ∧ t ∈ cs := by
  cases ni with
  | true =>
    rw [pod_auto] at h
    cases h
    exact ⟨s, rfl, hs⟩
  | false =>
    simp only [prompt_or_default, hc, Bool.false_eq_true, if_false] at h
    exact hcc _ _ _ _ h

theorem json_to_value_badShape {jv : JVal} (name : String)
    (h : JVal.badShape jv = true) :
    json_to_value name jv = Except.error (invalid_type_msg name jv) := by
  cases jv with
  | jstr s => simp [JVal.badShape] at h
  | jbool b => simp [JVal.badShape] at h
  | jnum n =>
    cases n with
    | some i => simp [JVal.badShape] at h
    | none => rfl
  | jnull => rfl
  | jarr => rfl
  | jobj fields => rfl

theorem load_values_not_object {tmpl : Template} {root : JVal}
    (h : JVal.isObject root = false) :
    load_values_from_json_file tmpl root = Except.error root_not_object_msg := by
  cases root <;> first | rfl | simp [JVal.isObject] at h

/-- A resolution failure aborts `try_main` before any hook or generation
event. -/
theorem try_main_abort_on_load_error (tmpl : Template) (p : Prompter)
    (setVars : Vals → Except String Unit) (runHooks : Bool) (env : HookEnv)
    (genResult : Except String Unit) (pre post : List HookFile) (root : JVal)
    (e : String)
    (h : load_values_from_json_file tmpl root = Except.error e) :
    try_main_generate tmpl (some root) false p setVars runHooks env genResult pre post =
      ([], some e) := by
  simp [try_main_generate, h]

/-! The claim theorems. -/

/-- C1: for every template (declarations in fixed order) and for both input
sources — interactive/automatic resolution and JSON input — the set of
variable names present in the final resolved mapping equals exactly the set of
declarations judged applicable at the time each was evaluated: no entry for
any inapplicable declaration and an entry for every applicable one. -/
theorem C1_resolved_names_eq_applicable
    (tmpl : Template) (ni : Bool) (p : Prompter) (root : JMap)
    (valsA : Vals) (jsA : List AskJudgment)
    (valsJ : Vals) (wsJ : List String) (jsJ : List JsonJudgment)
    (hA : ask_questionsT tmpl ni p = Except.ok (valsA, jsA))
    (hJ : load_values_from_json_fileT tmpl (JVal.jobj root) = Except.ok (valsJ, wsJ, jsJ)) :
    ask_questions tmpl ni p = Except.ok valsA ∧
    load_values_from_json_file tmpl (JVal.jobj root) = Except.ok (valsJ, wsJ) ∧
    (∀ n : String, (Vals.lookup valsA n).isSome = true ↔ n ∈ appliedNamesAsk jsA) ∧
    (∀ n : String, (Vals.lookup valsJ n).isSome = true ↔ n ∈ appliedNamesJson jsJ) := by
  refine ⟨?_, ?_, ?_, ?_⟩
  · rw [ask_questions_eq_T, hA]; rfl
  · rw [load_values_eq_T, hJ]; rfl
  · intro n
    have hd := askT_domain tmpl ni p tmpl.variables [] valsA jsA hA n
    simpa [Vals.lookup] using hd
  · intro n
    have hd := loadT_domain tmpl root tmpl.variables []
      valsJ (unknownKeyWarnings tmpl root) wsJ jsJ hJ n
    simpa [Vals.lookup] using hd

/-- Witness for C1 on the spec §8 scenario: in the automatic run `port` is
judged inapplicable and absent from the mapping; in the JSON run with
`use_docker = true` it is applicable and present. -/
theorem C1_witness :
    ask_questions demoTemplate true demoPrompter = Except.ok demoAutoVals ∧
    load_values_from_json_file demoTemplate (JVal.jobj demoJsonMap) =
      Except.ok (demoJsonVals, []) ∧
    ((Vals.lookup demoAutoVals "port").isSome = true ↔
      "port" ∈ appliedNamesAsk demoAutoJs) ∧
    ((Vals.lookup demoJsonVals "port").isSome = true ↔
      "port" ∈ appliedNamesJson demoJsonJs) := by
  have h := C1_resolved_names_eq_applicable demoTemplate true demoPrompter demoJsonMap
    demoAutoVals demoAutoJs demoJsonVals [] demoJsonJs rfl rfl
  exact ⟨h.1, h.2.1, h.2.2.1 "port", h.2.2.2 "port"⟩

/-- C2 counterexample: the JSON path performs no type check against the
declaration's computed default. For `typedTemplate` — whose single applicable
declaration `x` has the String default `"demo"` — the JSON input
`{"x": true}` succeeds and stores a Boolean, a different variant than the
default's. -/
theorem C2_counterexample :
    typedTemplate.should_ask_variable "x" [] = Except.ok true ∧
    typedTemplate.get_default_for "x" [] = Except.ok (Value.String "demo") ∧
    load_values_from_json_file typedTemplate (JVal.jobj [("x", JVal.jbool true)]) =
      Except.ok ([("x", Value.Boolean true)], []) ∧
    Value.sameVariant (Value.Boolean true) (Value.String "demo") = false :=
  ⟨rfl, rfl, rfl, rfl⟩

/-- C2 (amended): after resolution, with pairwise-distinct declaration names:
in the interactive/automatic path every applicable declaration has exactly one
entry whose variant is the variant of its computed default (given the §6
`ask_choices` string contract), and every inapplicable declaration has no
entry; in the JSON path every applicable declaration has exactly one entry
whose variant is dictated by the supplied JSON value — which need not match
the default's variant — and every inapplicable declaration has no entry. -/
theorem C2_variant_invariant
    (tmpl : Template) (ni : Bool) (p : Prompter) (root : JMap)
    (valsA : Vals) (jsA : List AskJudgment)
    (valsJ : Vals) (wsJ : List String) (jsJ : List JsonJudgment)
    (hnd : (List.map VarDecl.name tmpl.variables).Nodup)
    (hcc : ∀ (pr : String) (dv : Value) (cs : List String) (w : Value),
      p.ask_choices pr dv cs = Except.ok w → ∃ s, w = Value.String s)
    (hA : ask_questionsT tmpl ni p = Except.ok (valsA, jsA))
    (hJ : load_values_from_json_fileT tmpl (JVal.jobj root) = Except.ok (valsJ, wsJ, jsJ)) :
    (∀ j ∈ jsA,
      (j.applicable = true →
        ∃ d v, j.defaultVal = some d ∧ Vals.lookup valsA j.var.name = some v ∧
          Value.sameVariant v d = true) ∧
      (j.applicable = false → Vals.lookup valsA j.var.name = none)) ∧
    (∀ j ∈ jsJ,
      (j.applicable = true →
        ∃ jv v, j.supplied = some jv ∧ Vals.lookup valsJ j.var.name = some v ∧
          json_to_value j.var.name jv = Except.ok v) ∧
      (j.applicable = false → Vals.lookup valsJ j.var.name = none)) := by
  constructor
  · intro j hj
    constructor
    · intro happ
      obtain ⟨d, v, hd, hres, hpod, -⟩ :=
        askT_applied tmpl ni p tmpl.variables [] valsA jsA hA j hj happ
      have hlook := askT_final_lookup tmpl ni p tmpl.variables [] valsA jsA hA hnd
        (fun d hd => rfl) j hj
      exact ⟨d, v, hd, by rw [hlook, hres], pod_variant hcc hpod⟩
    · intro hna
      obtain ⟨-, hres, -⟩ :=
        askT_inapplicable tmpl ni p tmpl.variables [] valsA jsA hA j hj hna
      have hlook := askT_final_lookup tmpl ni p tmpl.variables [] valsA jsA hA hnd
        (fun d hd => rfl) j hj
      rw [hlook, hres]
  · intro j hj
    constructor
    · intro happ
      obtain ⟨jv, v, hsup, hres, -, hconv, -⟩ :=
        loadT_applied tmpl root tmpl.variables []
          valsJ (unknownKeyWarnings tmpl root) wsJ jsJ hJ hnd (fun d hd => rfl) j hj happ
      have hlook := loadT_final_lookup tmpl root tmpl.variables []
        valsJ (unknownKeyWarnings tmpl root) wsJ jsJ hJ hnd (fun d hd => rfl) j hj
      exact ⟨jv, v, hsup, by rw [hlook, hres], hconv⟩
    · intro hna
      obtain ⟨hres, -⟩ :=
        loadT_inapplicable tmpl root tmpl.variables []
          valsJ (unknownKeyWarnings tmpl root) wsJ jsJ hJ j hj hna
      have hlook := loadT_final_lookup tmpl root tmpl.variables []
        valsJ (unknownKeyWarnings tmpl root) wsJ jsJ hJ hnd (fun d hd => rfl) j hj
      rw [hlook, hres]

/-- Witness for the amended C2 on the spec §8 scenario: the inapplicable
`port` has no entry in the automatic run; in the JSON run it is applicable and
holds the Integer dictated by the supplied JSON number. -/
theorem C2_witness :
    Vals.lookup demoAutoVals "port" = none ∧
    Vals.lookup demoJsonVals "port" = some (Value.Integer 9000) := by
  have h := C2_variant_invariant demoTemplate true demoPrompter demoJsonMap
    demoAutoVals demoAutoJs demoJsonVals [] demoJsonJs
    (by decide)
    (fun pr dv cs w hw => by
      cases cs with
      | nil => exact Except.noConfusion hw
      | cons c crest =>
        refine ⟨c, ?_⟩
        have hw' : Except.ok (Value.String c) = Except.ok w := hw
        cases hw'
        rfl)
    rfl rfl
  refine ⟨?_, ?_⟩
  · exact (h.1 ⟨⟨"port", "Port?", none, none⟩, false, none, none⟩ (by decide)).2 rfl
  · have hx := (h.2 ⟨⟨"port", "Port?", none, none⟩, true,
      some (JVal.jnum (some 9000)), some (Value.Integer 9000)⟩ (by simp [demoJsonJs])).1 rfl
    obtain ⟨jv, v, hsup, hlook, hconv⟩ := hx
    have hjv : jv = JVal.jnum (some 9000) := by
      cases hsup
      rfl
    subst hjv
    have hv : v = Value.Integer 9000 := by
      have hconv' : Except.ok (Value.Integer 9000) = Except.ok v := hconv
      cases hconv'
      rfl
    subst hv
    exact hlook

/-- C3: the hook runner executes hooks in list order and stops at the first
hook whose child process exits with a non-zero code, surfacing that hook's
name in the failure; when a pre-generation hook fails, no later hook of the
phase runs, generation is never invoked, and the post-generation phase is
never entered. -/
theorem C3_hook_fail_fast
    (env : HookEnv) (genResult : Except String Unit)
    (good : List HookFile) (h : HookFile) (after post : List HookFile)
    (hgood : ∀ g ∈ good, env.status g = Except.ok true)
    (hfail : env.status h = Except.ok false) :
    execute_hook env h = Except.error (hook_failure_msg h.name) ∧
    run_hook_phase env (good ++ h :: after) =
      (List.map (fun g => Event.hookStarted g.name) good ++ [Event.hookStarted h.name],
       some (hook_failure_msg h.name)) ∧
    generation_phase true env genResult (good ++ h :: after) post =
      (List.map (fun g => Event.hookStarted g.name) good ++ [Event.hookStarted h.name],
       some (hook_failure_msg h.name)) ∧
    Event.generated ∉ (generation_phase true env genResult (good ++ h :: after) post).1 := by
  refine ⟨?_, run_hook_phase_fail env good h after hgood hfail,
    generation_phase_pre_fail env genResult good h after post hgood hfail, ?_⟩
  · rw [execute_hook, hfail]
  · rw [generation_phase_pre_fail env genResult good h after post hgood hfail]
    simp

/-- Witness for C3: `pre1` succeeds, `boom` fails, `pre2` never starts, no
generation event, the post hook never starts. -/
theorem C3_witness :
    run_hook_phase demoHookEnv
        [⟨"pre1", "h1"⟩, ⟨"boom", "h2"⟩, ⟨"pre2", "h3"⟩] =
      ([Event.hookStarted "pre1", Event.hookStarted "boom"],
       some (hook_failure_msg "boom")) ∧
    generation_phase true demoHookEnv (Except.ok ())
        [⟨"pre1", "h1"⟩, ⟨"boom", "h2"⟩, ⟨"pre2", "h3"⟩] [⟨"post1", "h4"⟩] =
      ([Event.hookStarted "pre1", Event.hookStarted "boom"],
       some (hook_failure_msg "boom")) := by
  have h := C3_hook_fail_fast demoHookEnv (Except.ok ())
    [⟨"pre1", "h1"⟩] ⟨"boom", "h2"⟩ [⟨"pre2", "h3"⟩] [⟨"post1", "h4"⟩]
    (by
      intro g hg
      rw [List.mem_singleton] at hg
      subst hg
      rfl)
    rfl
  exact ⟨h.2.1, h.2.2.1⟩

/-- C4: in JSON input mode, a declaration whose applicability evaluates true
and for which the document supplies no value is a hard failure naming the
variable; the adapter never falls back to the computed default — its result is
invariant under replacing `get_default_for` entirely. -/
theorem C4_missing_required
    (tmpl : Template) (jm : JMap) (var : VarDecl) (rest : List VarDecl)
    (vs : Vals) (ws : List String)
    (h1 : tmpl.should_ask_variable var.name vs = Except.ok true)
    (h2 : JMap.lookup jm var.name = none)
    (h3 : Vals.lookup vs var.name = none) :
    load_values_loop tmpl jm (var :: rest) vs ws =
      Except.error (missing_required_msg var.name) ∧
    ∀ (f : String → Vals → Except String Value) (root : JVal),
      load_values_from_json_file { tmpl with get_default_for := f } root =
        load_values_from_json_file tmpl root := by
  constructor
  · refine load_step_missing h1 h2 ?_
    rw [Vals.containsKey, h3]
    rfl
  · exact fun f root => load_values_ignores_defaults tmpl f root

/-- Witness for C4: `{"name": "x"}` omits the applicable `use_docker` of the
§8 scenario template, so the run fails with the missing-required error; and
no default computation can change the adapter's output. -/
theorem C4_witness :
    load_values_loop demoTemplate [("name", JVal.jstr "x")]
        [⟨"use_docker", "Use docker?", none, none⟩, ⟨"port", "Port?", none, none⟩]
        [("name", Value.String "x")] [] =
      Except.error (missing_required_msg "use_docker") ∧
    load_values_from_json_file
        { demoTemplate with get_default_for := fun _ _ => Except.error "never" }
        (JVal.jobj [("name", JVal.jstr "x")]) =
      load_values_from_json_file demoTemplate (JVal.jobj [("name", JVal.jstr "x")]) := by
  have h := C4_missing_required demoTemplate [("name", JVal.jstr "x")]
    ⟨"use_docker", "Use docker?", none, none⟩ [⟨"port", "Port?", none, none⟩]
    [("name", Value.String "x")] [] rfl rfl rfl
  exact ⟨h.1, h.2 (fun _ _ => Except.error "never") (JVal.jobj [("name", JVal.jstr "x")])⟩

/-- C5 counterexample: a bad-shaped JSON value (here `null`) supplied for a
declared variable is NOT fatal when that variable's applicability is false —
the adapter warns and succeeds, contradicting the claim that every supplied
non-integer number, null, array or object fails with an error naming the
variable. -/
theorem C5_counterexample :
    condTemplate.should_ask_variable "x" [] = Except.ok false ∧
    JVal.badShape JVal.jnull = true ∧
    load_values_from_json_file condTemplate (JVal.jobj [("x", JVal.jnull)]) =
      Except.ok ([], [only_if_warning "x"]) :=
  ⟨rfl, rfl, rfl⟩

/-- C5 (amended): every JSON input-shape error is fatal and aborts the run
before any generation or hook execution: a non-object root fails with the
input-must-be-an-object error; a supplied non-integer number, null, array or
nested object for a declaration judged applicable at its evaluation time fails
with an error naming that variable; and any adapter failure yields an empty
event trace — no hook started, no generation. (Bad-shaped values supplied for
inapplicable declarations are warned about and ignored, per the
counterexample.) -/
theorem C5_shape_errors
    (tmpl : Template) (p : Prompter) (setVars : Vals → Except String Unit)
    (runHooks : Bool) (env : HookEnv) (genResult : Except String Unit)
    (pre post : List HookFile) :
    (∀ root : JVal, JVal.isObject root = false →
      load_values_from_json_file tmpl root = Except.error root_not_object_msg) ∧
    (∀ (jm : JMap) (var : VarDecl) (rest : List VarDecl) (vs : Vals)
       (ws : List String) (jv : JVal),
      tmpl.should_ask_variable var.name vs = Except.ok true →
      JMap.lookup jm var.name = some jv →
      JVal.badShape jv = true →
      load_values_loop tmpl jm (var :: rest) vs ws =
        Except.error (invalid_type_msg var.name jv)) ∧
    (∀ (root : JVal) (e : String),
      load_values_from_json_file tmpl root = Except.error e →
      try_main_generate tmpl (some root) false p setVars runHooks env genResult pre post =
        ([], some e)) := by
  refine ⟨fun root h => load_values_not_object h, ?_, ?_⟩
  · intro jm var rest vs ws jv h1 h2 hbad
    exact load_step_supplied_badshape h1 h2 (json_to_value_badShape var.name hbad)
  · intro root e h
    exact try_main_abort_on_load_error tmpl p setVars runHooks env genResult pre post root e h

/-- Witness for the amended C5: a top-level JSON array aborts the whole
pipeline with an empty event trace, and a null supplied for the applicable
variable of `typedTemplate` fails naming `x`. -/
theorem C5_witness :
    load_values_from_json_file typedTemplate JVal.jarr =
      Except.error root_not_object_msg ∧
    try_main_generate typedTemplate (some JVal.jarr) false demoPrompter
        (fun _ => Except.ok ()) true demoHookEnv (Except.ok ())
        [⟨"pre1", "h1"⟩] [⟨"post1", "h4"⟩] =
      ([], some root_not_object_msg) ∧
    load_values_loop typedTemplate [("x", JVal.jnull)]
        [⟨"x", "x?", none, none⟩] [] [] =
      Except.error (invalid_type_msg "x" JVal.jnull) := by
  have h := C5_shape_errors typedTemplate demoPrompter (fun _ => Except.ok ())
    true demoHookEnv (Except.ok ()) [⟨"pre1", "h1"⟩] [⟨"post1", "h4"⟩]
  refine ⟨h.1 JVal.jarr rfl, ?_, ?_⟩
  · exact h.2.2 JVal.jarr root_not_object_msg (h.1 JVal.jarr rfl)
  · exact h.2.1 [("x", JVal.jnull)] ⟨"x", "x?", none, none⟩ [] [] [] JVal.jnull rfl rfl rfl

/-- C6: for every declaration with a string default and a non-empty choice
set, the value placed in the resolved mapping by the interactive path and by
the automatic path is a member of that choice set (given the §6 `ask_choices`
contract and a template whose choice defaults are members); in JSON input mode
ANY JSON string supplied for such a declaration is accepted without any
choice-membership check — the step inserts the supplied string for every `s`
whatsoever. -/
theorem C6_choice_membership
    (tmpl : Template) (ni : Bool) (p : Prompter)
    (valsA : Vals) (jsA : List AskJudgment)
    (hnd : (List.map VarDecl.name tmpl.variables).Nodup)
    (hcc : ∀ (pr : String) (dv : Value) (cs : List String) (w : Value),
      p.ask_choices pr dv cs = Except.ok w → ∃ t, w = Value.String t ∧ t ∈ cs)
    (hdc : ∀ var ∈ tmpl.variables, ∀ (vsx : Vals) (s : String) (cs : List String),
      var.choices = some cs →
      tmpl.get_default_for var.name vsx = Except.ok (Value.String s) → s ∈ cs)
    (hA : ask_questionsT tmpl ni p = Except.ok (valsA, jsA)) :
    (∀ j ∈ jsA, ∀ (cs : List String) (s : String),
      j.var.choices = some cs → cs ≠ [] → j.applicable = true →
      j.defaultVal = some (Value.String s) →
      ∃ t, t ∈ cs ∧ Vals.lookup valsA j.var.name = some (Value.String t)) ∧
    (∀ (jm : JMap) (var : VarDecl) (rest : List VarDecl) (vs : Vals)
       (ws : List String) (s : String),
      tmpl.should_ask_variable var.name vs = Except.ok true →
      JMap.lookup jm var.name = some (JVal.jstr s) →
      load_values_loop tmpl jm (var :: rest) vs ws =
        load_values_loop tmpl jm rest (Vals.insert vs var.name (Value.String s)) ws) := by
  constructor
  · intro j hj cs s hc hne happ hds
    obtain ⟨d, v, hdv, hres, hpod, vsj, hask, hdef⟩ :=
      askT_applied tmpl ni p tmpl.variables [] valsA jsA hA j hj happ
    rw [hdv] at hds
    have hdeq : d = Value.String s := by
      injection hds
    subst hdeq
    have hjmem : j.var ∈ tmpl.variables := by
      have hvars := askT_vars tmpl ni p tmpl.variables [] valsA jsA hA
      rw [← hvars]
      exact List.mem_map_of_mem AskJudgment.var hj
    have hsmem : s ∈ cs := hdc j.var hjmem vsj s cs hc hdef
    obtain ⟨t, htv, htm⟩ := pod_choices hcc hc hsmem hpod
    have hlook := askT_final_lookup tmpl ni p tmpl.variables [] valsA jsA hA hnd
      (fun d hd => rfl) j hj
    refine ⟨t, htm, ?_⟩
    rw [hlook, hres, htv]
  · intro jm var rest vs ws s h1 h2
    exact load_step_supplied h1 h2 rfl

/-- Witness for C6 on `choiceTemplate`: the interactive run stores a member of
the choice set; the JSON step accepts the non-member string `"WTFPL"`. -/
theorem C6_witness :
    Vals.lookup [("license", Value.String "MIT")] "license" =
      some (Value.String "MIT") ∧
    load_values_loop choiceTemplate [("license", JVal.jstr "WTFPL")]
        [⟨"license", "License?", some ["MIT", "BSD"], none⟩] [] [] =
      load_values_loop choiceTemplate [("license", JVal.jstr "WTFPL")] []
        (Vals.insert [] "license" (Value.String "WTFPL")) [] := by
  have h := C6_choice_membership choiceTemplate false demoPrompter
    [("license", Value.String "MIT")]
    [⟨⟨"license", "License?", some ["MIT", "BSD"], none⟩, true,
      some (Value.String "MIT"), some (Value.String "MIT")⟩]
    (by decide)
    (fun pr dv cs w hw => by
      cases cs with
      | nil => exact Except.noConfusion hw
      | cons c crest =>
        have hw' : Except.ok (Value.String c) = Except.ok w := hw
        cases hw'
        exact ⟨c, rfl, List.mem_cons_self _ _⟩)
    (by
      intro var hvar vsx s cs hc hd
      have hvar' : var = ⟨"license", "License?", some ["MIT", "BSD"], none⟩ := by
        simpa [choiceTemplate] using hvar
      subst hvar'
      have hcs : some ["MIT", "BSD"] = some cs := hc
      cases hcs
      have hds : Except.ok (Value.String "MIT") = Except.ok (Value.String s) := hd
      cases hds
      decide)
    rfl
  constructor
  · obtain ⟨t, htm, hlook⟩ := h.1
      ⟨⟨"license", "License?", some ["MIT", "BSD"], none⟩, true,
        some (Value.String "MIT"), some (Value.String "MIT")⟩
      (by decide) ["MIT", "BSD"] "MIT" rfl (by decide) rfl rfl
    have h0 : (some (Value.String "MIT") : Option Value) = some (Value.String t) := hlook
    have ht : "MIT" = t := by
      have h1 : Value.String "MIT" = Value.String t := by injection h0
      injection h1
    subst ht
    exact hlook
  · exact h.2 [("license", JVal.jstr "WTFPL")]
      ⟨"license", "License?", some ["MIT", "BSD"], none⟩ [] [] [] "WTFPL" rfl rfl

/-- C7: in automatic (no-input) mode the driver still invokes the Evaluator for
every declaration in order — applicability and defaults computed against the
values resolved so far — the value inserted for every applicable declaration is
exactly the computed default, and no prompt is issued: the outcome is the same
for every prompter. -/
theorem C7_automatic_mode
    (tmpl : Template) (p : Prompter)
    (valsA : Vals) (jsA : List AskJudgment)
    (hA : ask_questionsT tmpl true p = Except.ok (valsA, jsA)) :
    ask_questions tmpl true p = Except.ok valsA ∧
    (∀ q : Prompter, ask_questions tmpl true q = Except.ok valsA) ∧
    List.map AskJudgment.var jsA = tmpl.variables ∧
    (∀ j ∈ jsA, j.applicable = true →
      j.resolved = j.defaultVal ∧
      ∃ d, j.defaultVal = some d ∧
        ∃ vsj : Vals, tmpl.should_ask_variable j.var.name vsj = Except.ok true ∧
          tmpl.get_default_for j.var.name vsj = Except.ok d) := by
  have hfst : ask_questions tmpl true p = Except.ok valsA := by
    rw [ask_questions_eq_T, hA]
    rfl
  refine ⟨hfst, ?_, askT_vars tmpl true p tmpl.variables [] valsA jsA hA, ?_⟩
  · intro q
    have hq : ask_questions tmpl true q = ask_questions tmpl true p :=
      ask_loop_auto_prompter tmpl q p tmpl.variables []
    rw [hq]
    exact hfst
  · intro j hj happ
    obtain ⟨d, v, hd, hres, hpod, vsj, hask, hdef⟩ :=
      askT_applied tmpl true p tmpl.variables [] valsA jsA hA j hj happ
    rw [pod_auto] at hpod
    have hvd : d = v := by
      injection hpod
    subst hvd
    exact ⟨by rw [hres, hd], d, hd, vsj, hask, hdef⟩

/-- Witness for C7 on the §8 scenario: the automatic run succeeds identically
under a prompter whose every prompt fails, covers all three declarations, and
inserts the computed defaults. -/
theorem C7_witness :
    ask_questions demoTemplate true failPrompter = Except.ok demoAutoVals ∧
    List.map AskJudgment.var demoAutoJs = demoTemplate.variables := by
  have h := C7_automatic_mode demoTemplate demoPrompter demoAutoVals demoAutoJs rfl
  exact ⟨h.2.1 failPrompter, h.2.2.1⟩

/-- C8: in JSON input mode, supplying a value for a declaration whose
applicability evaluates false is non-fatal: the step emits the only-if
warning, writes no entry (the mapping is unchanged), and continues with the
remaining declarations. -/
theorem C8_inapplicable_supplied
    (tmpl : Template) (jm : JMap) (var : VarDecl) (rest : List VarDecl)
    (vs : Vals) (ws : List String) (jv : JVal)
    (h1 : tmpl.should_ask_variable var.name vs = Except.ok false)
    (h2 : JMap.lookup jm var.name = some jv) :
    load_values_loop tmpl jm (var :: rest) vs ws =
      load_values_loop tmpl jm rest vs (ws ++ [only_if_warning var.name]) := by
  refine load_step_inapplicable_supplied h1 ?_
  rw [JMap.containsKey, h2]
  rfl

/-- Witness for C8: supplying `port` while `use_docker` is false warns and
continues, leaving the mapping untouched. -/
theorem C8_witness :
    load_values_loop demoTemplate
        [("name", JVal.jstr "x"), ("use_docker", JVal.jbool false),
         ("port", JVal.jnum (some 9000))]
        [⟨"port", "Port?", none, none⟩]
        [("use_docker", Value.Boolean false), ("name", Value.String "x")] [] =
      load_values_loop demoTemplate
        [("name", JVal.jstr "x"), ("use_docker", JVal.jbool false),
         ("port", JVal.jnum (some 9000))]
        []
        [("use_docker", Value.Boolean false), ("name", Value.String "x")]
        ([] ++ [only_if_warning "port"]) :=
  C8_inapplicable_supplied demoTemplate
    [("name", JVal.jstr "x"), ("use_docker", JVal.jbool false),
     ("port", JVal.jnum (some 9000))]
    ⟨"port", "Port?", none, none⟩ []
    [("use_docker", Value.Boolean false), ("name", Value.String "x")] []
    (JVal.jnum (some 9000)) rfl rfl

/-- C9: JSON round-trip. A resolved mapping produced by either pipeline source
(interactive/automatic resolution or JSON input), serialized to the flat JSON
object shape (name to string/boolean/integer) and fed back through the JSON
Input Adapter for the same template, yields the identical resolved mapping —
with no warnings, since every serialized key is a declared name. -/
theorem C9_json_roundtrip
    (tmpl : Template) (ni : Bool) (p : Prompter) (root : JMap)
    (valsA : Vals) (jsA : List AskJudgment)
    (valsJ : Vals) (wsJ : List String) (jsJ : List JsonJudgment)
    (hnd : (List.map VarDecl.name tmpl.variables).Nodup)
    (hA : ask_questionsT tmpl ni p = Except.ok (valsA, jsA))
    (hJ : load_values_from_json_fileT tmpl (JVal.jobj root) = Except.ok (valsJ, wsJ, jsJ)) :
    load_values_from_json_file tmpl (JVal.jobj (Vals.toJsonMap valsA)) =
      Except.ok (valsA, []) ∧
    load_values_from_json_file tmpl (JVal.jobj (Vals.toJsonMap valsJ)) =
      Except.ok (valsJ, []) := by
  constructor
  · have hwarn : unknownKeyWarnings tmpl (Vals.toJsonMap valsA) = [] := by
      apply unknownKeyWarnings_nil
      intro kv hkv
      obtain ⟨e, he, hkve⟩ := List.mem_map.mp hkv
      rcases askT_entries tmpl ni p tmpl.variables [] valsA jsA hA e he with h0 | hname
      · exact absurd h0 (List.not_mem_nil e)
      · rw [List.any_eq_true]
        obtain ⟨var, hvar, hvname⟩ := List.mem_map.mp hname
        refine ⟨var, hvar, ?_⟩
        rw [← hkve]
        simp [hvname]
    have hstep : load_values_from_json_file tmpl (JVal.jobj (Vals.toJsonMap valsA)) =
        load_values_loop tmpl (Vals.toJsonMap valsA) tmpl.variables []
          (unknownKeyWarnings tmpl (Vals.toJsonMap valsA)) := rfl
    rw [hstep, hwarn]
    exact rt_from_ask tmpl ni p tmpl.variables [] valsA jsA (Vals.toJsonMap valsA) []
      hA hnd (fun d hd => rfl) (fun d hd => JMap.lookup_toJsonMap valsA d.name)
  · have hwarn : unknownKeyWarnings tmpl (Vals.toJsonMap valsJ) = [] := by
      apply unknownKeyWarnings_nil
      intro kv hkv
      obtain ⟨e, he, hkve⟩ := List.mem_map.mp hkv
      rcases loadT_entries tmpl root tmpl.variables []
          valsJ (unknownKeyWarnings tmpl root) wsJ jsJ hJ e he with h0 | hname
      · exact absurd h0 (List.not_mem_nil e)
      · rw [List.any_eq_true]
        obtain ⟨var, hvar, hvname⟩ := List.mem_map.mp hname
        refine ⟨var, hvar, ?_⟩
        rw [← hkve]
        simp [hvname]
    have hstep : load_values_from_json_file tmpl (JVal.jobj (Vals.toJsonMap valsJ)) =
        load_values_loop tmpl (Vals.toJsonMap valsJ) tmpl.variables []
          (unknownKeyWarnings tmpl (Vals.toJsonMap valsJ)) := rfl
    rw [hstep, hwarn]
    exact rt_from_json tmpl root tmpl.variables []
      valsJ (unknownKeyWarnings tmpl root) wsJ jsJ (Vals.toJsonMap valsJ) []
      hJ hnd (fun d hd => rfl) (fun d hd => JMap.lookup_toJsonMap valsJ d.name)

/-- Witness for C9 on the §8 scenario: serializing either resolved mapping and
re-feeding it reproduces the mapping exactly. -/
theorem C9_witness :
    load_values_from_json_file demoTemplate (JVal.jobj (Vals.toJsonMap demoAutoVals)) =
      Except.ok (demoAutoVals, []) ∧
    load_values_from_json_file demoTemplate (JVal.jobj (Vals.toJsonMap demoJsonVals)) =
      Except.ok (demoJsonVals, []) :=
  C9_json_roundtrip demoTemplate true demoPrompter demoJsonMap
    demoAutoVals demoAutoJs demoJsonVals [] demoJsonJs (by decide) rfl rfl

/-- C10: the JSON number conversion of the adapter is total and panic-free.
The source guards `n.as_i64().unwrap()` by `n.is_i64()`; in the embedding the
unwrap applied to a numberless view yields the distinguished `panicked`
outcome, and the theorem shows the guarded conversion never reaches it: for
every JSON number it is an Integer Value when the number is i64-representable
and the only-integers error otherwise, both at the `numberToValue` level and
as surfaced by `json_to_value`. -/
theorem C10_number_conversion_total :
    ∀ n : JNumber,
      numberToValue n = (match n with
        | some i => ConvOutcome.ok (Value.Integer i)
        | none => ConvOutcome.typeError) ∧
      numberToValue n ≠ ConvOutcome.panicked ∧
      ∀ name : String,
        json_to_value name (JVal.jnum n) = (match n with
          | some i => Except.ok (Value.Integer i)
          | none => Except.error (invalid_type_msg name (JVal.jnum n))) := by
  intro n
  cases n with
  | some i => exact ⟨rfl, fun hc => ConvOutcome.noConfusion hc, fun name => rfl⟩
  | none => exact ⟨rfl, fun hc => ConvOutcome.noConfusion hc, fun name => rfl⟩

/-- Witness for C10 at two concrete numbers: the i64-representable `3`
converts to `Integer 3`; the non-representable number errs. -/
theorem C10_witness :
    numberToValue (some 3) = ConvOutcome.ok (Value.Integer 3) ∧
    numberToValue none = ConvOutcome.typeError ∧
    json_to_value "x" (JVal.jnum none) =
      Except.error (invalid_type_msg "x" (JVal.jnum none)) :=
  ⟨(C10_number_conversion_total (some 3)).1,
   (C10_number_conversion_total none).1,
   (C10_number_conversion_total none).2.2 "x"⟩

end Kickstart
